import Mathlib

/-!
# Verification of the KGQA force-directed graph interaction core

Shallow embedding of the graph data model and the selection / traversal /
highlighting operations of the KGQA client
(`client/src/components/graph/graphUtils.ts`, `GraphInteractions.ts`,
`GraphHighlighting.ts`, `GraphRenderer.tsx`), together with proofs about them.

Conventions of the embedding:

* JS `number` values that the embedded code only moves around (positions,
  radii, velocities) are rationals (`ℚ`); the fit-to-view computation, whose
  behaviour hinges on `Infinity`/`NaN` propagation, uses the dedicated
  `JsNum` type below.
* A JS field that can be `number | undefined` is `Option ℚ`; the
  `fx`/`fy` fields, which distinguish `undefined`, `null` and a number, are
  the three-valued `NVal`.
* JS `Map`/`Set` are association lists / insertion-ordered duplicate-free
  lists, matching the mutation patterns of the source.
* `Math.random()` is an explicit oracle `Nat → Nat` (a draw for index `i`
  into a list of length `len` is `o i % len`), and the unbounded recursion
  of `findRandomPath` is modelled with explicit fuel: the value `none`
  of the fuelled function for every fuel corresponds to divergence.
* DOM / d3 rendering calls (`d3.select… .attr`) do not touch the node/link
  data model and are omitted; simulation reheats (`alpha(..).restart()`)
  likewise only touch the physics engine, not the data model.
-/

/-- JS `number | null | undefined`, the type of the `fx`/`fy` pinning fields
(d3 treats `null`/`undefined` as "not fixed" but the source distinguishes
them with `=== undefined` / `=== null` checks). -/
inductive NVal where
  | undef : NVal
  | null : NVal
  | val : ℚ → NVal
deriving DecidableEq, Repr

/-- A simulation node (`GraphNode` of `types.ts`). -/
structure GNode where
  id : String
  label : String
  r : ℚ
  index : Nat
  x : Option ℚ
  y : Option ℚ
  fx : NVal
  fy : NVal
  vx : ℚ
  vy : ℚ
  isSelected : Bool
  isHighlighted : Bool
  color : Option String
  tooltipText : Option String
deriving DecidableEq, Repr

/-- A simulation edge (`GraphLink` of `types.ts`).  The source stores the
resolved endpoint node objects; since every use of an endpoint goes through
its `id` (`typeof link.source === 'object' ? link.source.id : link.source`),
the embedding keeps the endpoint ids. -/
structure GLink where
  sourceId : String
  targetId : String
  type : String
  edgeIndex : Nat
  length : ℚ
  relevanceScore : ℚ
  isHighlighted : Bool
  highlightLabel : Option String
deriving DecidableEq, Repr

/-- `NeighborhoodSelection` of `types.ts`. -/
structure NeighborhoodSelection where
  sourceNodeId : Option String
  currentDepth : Nat
deriving DecidableEq, Repr

/-- `ExactLayerSelection` of `types.ts`. -/
structure ExactLayerSelection where
  sourceNodeId : Option String
  currentLayer : Nat
deriving DecidableEq, Repr

/-! ## Association-list model of `Map<string, Set<string>>` -/

/-- The adjacency map: keys in insertion order, each with an
insertion-ordered, duplicate-free neighbour list (a JS `Set<string>`). -/
abbrev Adj : Type := List (String × List String)

/-- `map.get(k)` on the adjacency map. -/
def adjGet (m : Adj) (k : String) : Option (List String) :=
  (List.find? (fun p => p.1 == k) m).map (fun p => p.2)

/-- `map.set(k, v)` (overwrite if present, else append). -/
def adjSet (m : Adj) (k : String) (v : List String) : Adj :=
  if List.any m (fun p => p.1 == k) then
    List.map (fun p => if p.1 == k then (k, v) else p) m
  else m ++ [(k, v)]

/-- `map.get(k)?.add(n)`: add `n` to the set at key `k` when the key exists
(a JS `Set` ignores duplicates). -/
def adjAdd (m : Adj) (k : String) (n : String) : Adj :=
  List.map (fun p =>
    if p.1 == k then (p.1, if p.2.contains n then p.2 else p.2 ++ [n]) else p) m

/-- `buildAdjacencyList(nodes, links)` of `graphUtils.ts`: initialize every
node id with an empty set, then add both directions of every link. -/
def buildAdjacencyList (nodes : List GNode) (links : List GLink) : Adj :=
  let init := nodes.foldl (fun m n => adjSet m n.id []) ([] : Adj)
  links.foldl (fun m l => adjAdd (adjAdd m l.sourceId l.targetId) l.targetId l.sourceId) init

/-! ## `findNodesAtDepths` (BFS with a FIFO queue) -/

/-- The level map `Map<number, Set<string>>` as a total function; its keys
are `0..maxDepth`, enforced by `lvlAdd`. -/
abbrev Lvl : Type := Nat → List String

/-- `nodesAtDepth.get(d)?.add(n)`: the key exists iff `d ≤ maxDepth`. -/
def lvlAdd (maxDepth : Nat) (l : Lvl) (d : Nat) (n : String) : Lvl :=
  if d ≤ maxDepth then (fun k => if k = d then l d ++ [n] else l k) else l

/-- The inner `for (const neighborId of neighbors)` loop of the BFS: each
unvisited neighbour is marked visited, enqueued at distance `d+1`, and
recorded in level `d+1`. -/
def processNeighbors (maxDepth d : Nat) :
    List String → List String → List (String × Nat) → Lvl →
    List String × List (String × Nat) × Lvl
  | [], visited, queue, levels => (visited, queue, levels)
  | n :: rest, visited, queue, levels =>
    if visited.contains n then processNeighbors maxDepth d rest visited queue levels
    else processNeighbors maxDepth d rest (visited ++ [n]) (queue ++ [(n, d + 1)])
      (lvlAdd maxDepth levels (d + 1) n)

/-- All strings occurring in the adjacency map (keys and neighbours):
a bound on what BFS can ever visit. -/
def adjUniv (m : Adj) : List String :=
  List.foldr (fun p acc => p.1 :: (p.2 ++ acc)) [] m

/-- Number of not-yet-visited members of `univ` (termination measure). -/
def unvis (univ visited : List String) : Nat :=
  (univ.filter (fun u => !(visited.contains u))).length

theorem contains_decide (l : List String) (a : String) : l.contains a = decide (a ∈ l) := by
  induction l with
  | nil => simp [List.contains]
  | cons b t ih =>
    simp only [List.contains_cons]
    by_cases h : a = b
    · subst h; simp
    · have hb : (a == b) = false := by simpa using h
      simp [hb, ih, h]

theorem length_filter_mono {p q : String → Bool} (l : List String)
    (h : ∀ x, q x = true → p x = true) :
    (l.filter q).length ≤ (l.filter p).length := by
  induction l with
  | nil => simp
  | cons a l ih =>
    by_cases hq : q a = true
    · simp [List.filter_cons, hq, h a hq]; omega
    · have : q a = false := by revert hq; cases q a <;> simp
      simp only [List.filter_cons, this]
      by_cases hp : p a = true
      · simp [hp]; omega
      · have : p a = false := by revert hp; cases p a <;> simp
        simp [this]; exact ih

theorem unvis_append_one {univ visited : List String} {n : String}
    (hu : n ∈ univ) (hv : visited.contains n = false) :
    unvis univ (visited ++ [n]) + 1 ≤ unvis univ visited := by
  unfold unvis
  induction univ with
  | nil => simp at hu
  | cons a l ih =>
    have hmono := length_filter_mono (p := fun u => !(visited.contains u))
      (q := fun u => !((visited ++ [n]).contains u)) l
      (by intro x hx; simp [contains_decide] at hx ⊢; tauto)
    rcases List.mem_cons.mp hu with heq | hl
    · subst heq
      have ha : (visited ++ [n]).contains n = true := by
        simp [contains_decide]
      simp only [List.filter_cons, ha, hv, Bool.not_true, Bool.not_false]
      simp only [Bool.false_eq_true, if_false, if_true, List.length_cons]
      omega
    · have hstep := ih hl
      by_cases hc2 : visited.contains a = true
      · have hc : (visited ++ [n]).contains a = true := by
          simp only [contains_decide, decide_eq_true_eq] at hc2 ⊢
          exact List.mem_append_left _ hc2
        simp only [List.filter_cons, hc, hc2, Bool.not_true]
        simpa using hstep
      · have hc2' : visited.contains a = false := by revert hc2; cases visited.contains a <;> simp
        by_cases hc : (visited ++ [n]).contains a = true
        · simp only [List.filter_cons, hc, hc2', Bool.not_true, Bool.not_false]
          simp only [Bool.false_eq_true, if_false, if_true, List.length_cons]
          omega
        · have hc' : (visited ++ [n]).contains a = false := by revert hc; cases (visited ++ [n]).contains a <;> simp
          simp only [List.filter_cons, hc', hc2', Bool.not_false]
          simp only [if_true, List.length_cons]
          omega

theorem processNeighbors_measure (maxDepth d : Nat) (univ : List String) :
    ∀ (nbrs visited : List String) (queue : List (String × Nat)) (levels : Lvl),
    (∀ n ∈ nbrs, n ∈ univ) →
    unvis univ (processNeighbors maxDepth d nbrs visited queue levels).1 +
      (processNeighbors maxDepth d nbrs visited queue levels).2.1.length ≤
    unvis univ visited + queue.length := by
  intro nbrs
  induction nbrs with
  | nil => intro visited queue levels _; simp [processNeighbors]
  | cons n rest ih =>
    intro visited queue levels hmem
    by_cases hc : visited.contains n = true
    · simp only [processNeighbors, hc, if_pos]
      exact ih visited queue levels (fun x hx => hmem x (List.mem_cons_of_mem _ hx))
    · have hc' : visited.contains n = false := by revert hc; cases visited.contains n <;> simp
      simp only [processNeighbors, hc', Bool.false_eq_true, if_false]
      have h1 := ih (visited ++ [n]) (queue ++ [(n, d + 1)])
        (lvlAdd maxDepth levels (d + 1) n)
        (fun x hx => hmem x (List.mem_cons_of_mem _ hx))
      have h2 := unvis_append_one (hmem n (List.mem_cons_self _ _)) hc'
      simp only [List.length_append, List.length_cons, List.length_nil] at h1 ⊢
      omega

theorem snd_mem_adjUniv : ∀ (m : Adj) (p : String × List String), p ∈ m →
    ∀ n ∈ p.2, n ∈ adjUniv m := by
  intro m
  induction m with
  | nil => intro p hp; cases hp
  | cons q l ih =>
    intro p hp n hn
    unfold adjUniv
    rcases List.mem_cons.mp hp with heq | hl
    · subst heq
      simp only [List.foldr_cons]
      exact List.mem_cons_of_mem _ (List.mem_append_left _ hn)
    · simp only [List.foldr_cons]
      have := ih p hl n hn
      unfold adjUniv at this
      exact List.mem_cons_of_mem _ (List.mem_append_right _ this)

theorem mem_adjUniv_of_adjGet {m : Adj} {k : String} {ns : List String}
    (h : adjGet m k = some ns) : ∀ n ∈ ns, n ∈ adjUniv m := by
  unfold adjGet at h
  cases hf : List.find? (fun p => p.1 == k) m with
  | none => rw [hf] at h; cases h
  | some p =>
    rw [hf] at h
    have hp : p.2 = ns := by simpa using h
    have hm := List.mem_of_find?_eq_some hf
    intro n hn
    exact snd_mem_adjUniv m p hm n (by rw [hp]; exact hn)

/-- The `while (queue.length > 0)` BFS loop of `findNodesAtDepths`:
dequeue, skip when already at `maxDepth`, otherwise visit the unvisited
neighbours (terminates because each iteration either shortens the queue or
visits a new member of `adjUniv`). -/
def bfsLoop (adj : Adj) (maxDepth : Nat) :
    List (String × Nat) → List String → Lvl → Lvl
  | [], _, levels => levels
  | (nodeId, distance) :: rest, visited, levels =>
    if maxDepth ≤ distance then bfsLoop adj maxDepth rest visited levels
    else
      let nbrs := (adjGet adj nodeId).getD []
      let t := processNeighbors maxDepth distance nbrs visited rest levels
      bfsLoop adj maxDepth t.2.1 t.1 t.2.2
termination_by q v _ => unvis (adjUniv adj) v + q.length
decreasing_by
  · simp only [List.length_cons]; omega
  · have hsub : ∀ n ∈ (adjGet adj nodeId).getD [], n ∈ adjUniv adj := by
      rcases hg : adjGet adj nodeId with _ | ns
      · simp
      · simpa using mem_adjUniv_of_adjGet hg
    have := processNeighbors_measure maxDepth distance (adjUniv adj)
      ((adjGet adj nodeId).getD []) visited rest levels hsub
    simp only [List.length_cons]
    omega

/-- `findNodesAtDepths(startNodeId, maxDepth, adjList)` of `graphUtils.ts`:
level map with keys `0..maxDepth`, level 0 seeded with the start node, then
the FIFO BFS. -/
def findNodesAtDepths (startNodeId : String) (maxDepth : Nat) (adjList : Adj) : Lvl :=
  let levels0 : Lvl := lvlAdd maxDepth (fun _ => []) 0 startNodeId
  bfsLoop adjList maxDepth [(startNodeId, 0)] [startNodeId] levels0

/-! ## Spec-side shortest-path distance

The claims speak of "the BFS distance over the undirected adjacency"; the
specification-level definition is the least number of hops: `reachInB adj s
n v` holds when `v` is reachable from `s` in at most `n` hops of the
adjacency map. -/

/-- `v` is reachable from `s` within `n` hops over `adj`. -/
def reachInB (adj : Adj) (s : String) : Nat → String → Bool
  | 0, v => v == s
  | n + 1, v =>
    reachInB adj s n v ||
      (s :: adjUniv adj).any (fun u => reachInB adj s n u && ((adjGet adj u).getD []).contains v)

/-- The BFS distance of `v` from `s` is exactly `k` (for `k ≥ 1`):
reachable in `k` hops but not in `k - 1`. -/
def distIs (adj : Adj) (s : String) (k : Nat) (v : String) : Bool :=
  reachInB adj s k v && !(reachInB adj s (k - 1) v)

/-! ## `GraphInteractions.ts`: selection operations -/

/-- Mutation of the first node with a given id (`nodes.find(n => n.id === id)`
followed by in-place mutation); no match leaves the list unchanged
(`if (!node) continue`). -/
def updateFirstNode (id : String) (f : GNode → GNode) : List GNode → List GNode
  | [] => []
  | n :: rest =>
    if n.id == id then f n :: rest else n :: updateFirstNode id f rest

/-- `node.isSelected = true` followed by the shared "fix position only if
it's not already fixed" block: the `=== undefined` test does *not* treat a
`null` cleared by a previous deselection as unfixed. -/
def selectAndPin (n0 : GNode) : GNode :=
  let n := { n0 with isSelected := true }
  if n.fx = NVal.undef ∨ n.fy = NVal.undef then
    match n.x, n.y with
    | some px, some py => { n with fx := NVal.val px, fy := NVal.val py }
    | _, _ => n
  else n

/-- `selectNodeNeighborhood(sourceNodeId, depth, nodes, links, simulation)`:
select and pin the source node and every node at BFS depth `1..depth`
(d3 stroke updates and the simulation handle are render-only and omitted). -/
def selectNodeNeighborhood (sourceNodeId : String) (depth : Nat)
    (nodes : List GNode) (links : List GLink) : List GNode :=
  if nodes.isEmpty ∨ links.isEmpty then nodes
  else
    match List.find? (fun n => n.id == sourceNodeId) nodes with
    | none => nodes
    | some _ =>
      let nodes1 := updateFirstNode sourceNodeId selectAndPin nodes
      if depth = 0 then nodes1
      else
        let adjacencyList := buildAdjacencyList nodes1 links
        let nodesByDepth := findNodesAtDepths sourceNodeId depth adjacencyList
        (List.range' 1 depth).foldl
          (fun ns i => (nodesByDepth i).foldl
            (fun ns2 nodeId => updateFirstNode nodeId selectAndPin ns2) ns)
          nodes1

/-- `selectExactLayer(sourceNodeId, layerDepth, nodes, links, simulation)`:
deselect and unpin (`fx = null`) everything but the source, re-select and
pin the source, then select the nodes at exactly `layerDepth`. -/
def selectExactLayer (sourceNodeId : String) (layerDepth : Nat)
    (nodes : List GNode) (links : List GLink) : List GNode :=
  if nodes.isEmpty ∨ links.isEmpty ∨ layerDepth < 1 then nodes
  else
    match List.find? (fun n => n.id == sourceNodeId) nodes with
    | none => nodes
    | some _ =>
      let nodes1 := nodes.map (fun node =>
        if node.id == sourceNodeId then node
        else { node with isSelected := false, fx := NVal.null, fy := NVal.null })
      let nodes2 := updateFirstNode sourceNodeId selectAndPin nodes1
      if layerDepth = 0 then nodes2
      else
        let adjacencyList := buildAdjacencyList nodes2 links
        let nodesByDepth := findNodesAtDepths sourceNodeId layerDepth adjacencyList
        let nodesAtExactLayer := nodesByDepth layerDepth
        nodesAtExactLayer.foldl
          (fun ns nodeId => updateFirstNode nodeId selectAndPin ns) nodes2

/-- The mutable state read and written by `handleNodeClick`. -/
structure ClickState where
  nodes : List GNode
  neighborhoodSelection : NeighborhoodSelection
  exactLayerSelection : ExactLayerSelection
deriving DecidableEq, Repr

/-- `handleNodeClick(event, d, nodes, …)` of `GraphInteractions.ts`, with the
ambient key flags passed explicitly and the clicked node `d` given by its
index into `nodes` (the DOM event and stroke updates are omitted; the
`simulation.alpha(..).restart()` reheats touch only the physics engine). -/
def handleNodeClick (shiftKey isNPressed isMPressed : Bool) (clickedIdx : Nat)
    (st : ClickState) (links : List GLink) : ClickState :=
  match st.nodes.get? clickedIdx with
  | none => st
  | some d =>
    if shiftKey then
      let nbh :=
        if st.neighborhoodSelection.sourceNodeId = some d.id then
          { st.neighborhoodSelection with currentDepth := 0 }
        else st.neighborhoodSelection
      { nodes := st.nodes.set clickedIdx
          { d with isSelected := false, fx := NVal.null, fy := NVal.null },
        neighborhoodSelection := nbh,
        exactLayerSelection := st.exactLayerSelection }
    else if isNPressed then
      let clickedNodeId := d.id
      let nbh :=
        if d.isSelected = false ∨ st.neighborhoodSelection.sourceNodeId ≠ some clickedNodeId then
          { sourceNodeId := some clickedNodeId, currentDepth := 1 }
        else
          { st.neighborhoodSelection with
            currentDepth := st.neighborhoodSelection.currentDepth + 1 }
      { nodes := selectNodeNeighborhood clickedNodeId nbh.currentDepth st.nodes links,
        neighborhoodSelection := nbh,
        exactLayerSelection := st.exactLayerSelection }
    else if isMPressed then
      let clickedNodeId := d.id
      let exl :=
        if d.isSelected = false ∨ st.exactLayerSelection.sourceNodeId ≠ some clickedNodeId then
          { sourceNodeId := some clickedNodeId, currentLayer := 1 }
        else
          { st.exactLayerSelection with
            currentLayer := st.exactLayerSelection.currentLayer + 1 }
      { nodes := selectExactLayer clickedNodeId exl.currentLayer st.nodes links,
        neighborhoodSelection := st.neighborhoodSelection,
        exactLayerSelection := exl }
    else st

/-! ## `transformGraphData` (graph model build) -/

/-- A raw node of the graph payload (`{id, label}`). -/
structure RawNode where
  id : String
  label : String
deriving DecidableEq, Repr

/-- A raw edge of the graph payload (`{source, target, type}`). -/
structure RawEdge where
  source : String
  target : String
  type : String
deriving DecidableEq, Repr

/-- The graph payload (`Graph` of the shared schema). -/
structure Graph where
  nodes : List RawNode
  edges : List RawEdge
deriving DecidableEq, Repr

/-- Lookup in a JS `Map` built by successive `set` calls keyed on `id`:
the last write wins. -/
def mapGetNode (l : List GNode) (k : String) : Option GNode :=
  List.find? (fun n => n.id == k) l.reverse

/-- The body of the `graph.edges.map((edge, edgeIndex) => …)` arrow of
`transformGraphData` (with the `.filter(Boolean)` fused in: `null` for a
dropped edge becomes `none`). -/
def transformLink (nodes : List GNode) (p : Nat × RawEdge) : Option GLink :=
  let edgeIndex := p.1
  let edge := p.2
  match mapGetNode nodes edge.source, mapGetNode nodes edge.target with
  | some _, some _ =>
    let seed := edgeIndex + (edge.source.length + edge.target.length)
    some { sourceId := edge.source
           targetId := edge.target
           type := edge.type
           edgeIndex := edgeIndex
           length := 30
           relevanceScore := ((seed % 100 : Nat) : ℚ) / 100
           isHighlighted := false
           highlightLabel := some "" }
  | _, _ => none

/-- `transformGraphData(graph, oldNodes, nodeRadius)` of `graphUtils.ts`:
carry node state forward by id from `oldNodes`, resolve edge endpoints
(dropping, with a console warning, edges whose endpoints are unknown) and
assign each kept edge the deterministic relevance score
`((edgeIndex + source.length + target.length) % 100) / 100`. -/
def transformGraphData (graph : Graph) (oldNodes : List GNode) (nodeRadius : ℚ) :
    List GNode × List GLink :=
  let nodes : List GNode := graph.nodes.enum.map (fun p =>
    let index := p.1
    let node := p.2
    let oldNode := mapGetNode oldNodes node.id
    { id := node.id
      label := node.label
      r := nodeRadius
      index := index
      x := oldNode.bind (fun n => n.x)
      y := oldNode.bind (fun n => n.y)
      isSelected := (oldNode.map (fun n => n.isSelected)).getD false
      color := match oldNode with
        | some n => match n.color with
          | some c => if c = "" then some "#6366f1" else some c
          | none => some "#6366f1"
        | none => some "#6366f1"
      isHighlighted := (oldNode.map (fun n => n.isHighlighted)).getD false
      tooltipText := oldNode.bind (fun n => n.tooltipText)
      fx := (oldNode.map (fun n => n.fx)).getD NVal.undef
      fy := (oldNode.map (fun n => n.fy)).getD NVal.undef
      vx := (oldNode.map (fun n => n.vx)).getD 0
      vy := (oldNode.map (fun n => n.vy)).getD 0 })
  let links : List GLink := graph.edges.enum.filterMap (transformLink nodes)
  (nodes, links)

/-! ## `findRandomPath` (randomized walk with unbounded retry)

`Math.random()` draws are an oracle `o : Nat → Nat`: the `i`-th draw used
to index a list of length `len` is `o i % len` (each call consumes the
stream head and the rest is passed on).  The recursion of the source has no
retry cap, so it is modelled with fuel; `none` for every fuel is the
divergence of the unbounded recursion. -/

/-- `links.find(link => …)` locating an edge between two node ids
(either orientation). -/
def findEdgeBetween (links : List GLink) (a b : String) : Option GLink :=
  List.find? (fun l =>
    (l.sourceId == a && l.targetId == b) || (l.sourceId == b && l.targetId == a)) links

/-- The `for (let i = 0; i < length; i++)` walk of `findRandomPath`: extend
the path with a random neighbour until the requested length is reached, a
dead end is hit, or no connecting edge is found; returns the accumulated
path and the remaining oracle. -/
def randomWalk (adj : Adj) (links : List GLink) :
    Nat → (Nat → Nat) → String → List GLink → List GLink × (Nat → Nat)
  | 0, o, _, path => (path, o)
  | steps + 1, o, currentNodeId, path =>
    let neighborArray := (adjGet adj currentNodeId).getD []
    if neighborArray.isEmpty then (path, o)
    else
      let nextNodeId := neighborArray.getD (o 0 % neighborArray.length) ""
      match findEdgeBetween links currentNodeId nextNodeId with
      | none => (path, fun n => o (n + 1))
      | some edge =>
        randomWalk adj links steps (fun n => o (n + 1)) nextNodeId (path ++ [edge])

/-- `findRandomPath(length, nodes, links)` of `graphUtils.ts` with explicit
fuel for the uncapped recursive retries: `some (some p)` is a found path,
`some none` the `null` of the guard, and `none` means the fuel ran out —
i.e. the unbounded recursion of the source never returned. -/
def findRandomPathFuel : Nat → (Nat → Nat) → Nat → List GNode → List GLink →
    Option (Option (List GLink))
  | 0, _, _, _, _ => none
  | fuel + 1, o, length, nodes, links =>
    if length = 0 ∨ links.isEmpty ∨ nodes.isEmpty then some none
    else
      let adjacencyList := buildAdjacencyList nodes links
      match nodes.get? (o 0 % nodes.length) with
      | none => some none
      | some startNode =>
        let w := randomWalk adjacencyList links length (fun n => o (n + 1)) startNode.id []
        if w.1.length < length then findRandomPathFuel fuel w.2 length nodes links
        else some (some w.1)

/-- `findRandomPath` diverges on this input: the unbounded retry recursion
never produces a result, whatever the random draws. -/
def findRandomPathDiverges (length : Nat) (nodes : List GNode) (links : List GLink) : Prop :=
  ∀ (fuel : Nat) (o : Nat → Nat), findRandomPathFuel fuel o length nodes links = none

/-! ## `getShortestPathDistance` and `detectCommunities` -/

/-- The inner neighbour scan of `getShortestPathDistance`: `none` signals
the early `return distance + 1` on meeting `endId`, otherwise the updated
visited set and queue. -/
def spdScan (endId : String) (distance : Nat) :
    List String → List String → List (String × Nat) →
    Option (List String × List (String × Nat))
  | [], visited, queue => some (visited, queue)
  | n :: rest, visited, queue =>
    if n == endId then none
    else if visited.contains n then spdScan endId distance rest visited queue
    else spdScan endId distance rest (visited ++ [n]) (queue ++ [(n, distance + 1)])

theorem spdScan_measure (endId : String) (distance : Nat) (univ : List String) :
    ∀ (nbrs visited : List String) (queue : List (String × Nat))
      (out : List String × List (String × Nat)),
    (∀ n ∈ nbrs, n ∈ univ) →
    spdScan endId distance nbrs visited queue = some out →
    unvis univ out.1 + out.2.length ≤ unvis univ visited + queue.length := by
  intro nbrs
  induction nbrs with
  | nil =>
    intro visited queue out _ h
    simp only [spdScan, Option.some.injEq] at h
    subst h; simp
  | cons n rest ih =>
    intro visited queue out hmem h
    by_cases he : (n == endId) = true
    · simp only [spdScan, he, if_pos] at h
      cases h
    · have he' : (n == endId) = false := by revert he; cases n == endId <;> simp
      by_cases hc : visited.contains n = true
      · simp only [spdScan, he', Bool.false_eq_true, if_false, hc, if_pos] at h
        exact ih visited queue out (fun x hx => hmem x (List.mem_cons_of_mem _ hx)) h
      · have hc' : visited.contains n = false := by revert hc; cases visited.contains n <;> simp
        simp only [spdScan, he', hc', Bool.false_eq_true, if_false] at h
        have h1 := ih (visited ++ [n]) (queue ++ [(n, distance + 1)]) out
          (fun x hx => hmem x (List.mem_cons_of_mem _ hx)) h
        have h2 := unvis_append_one (hmem n (List.mem_cons_self _ _)) hc'
        simp only [List.length_append, List.length_cons, List.length_nil] at h1 ⊢
        omega

/-- The `while (queue.length > 0)` loop of `getShortestPathDistance`;
`none` is the `Infinity` returned when no path is found. -/
def spdLoop (adj : Adj) (endId : String) :
    List (String × Nat) → List String → Option Nat
  | [], _ => none
  | (id, distance) :: rest, visited =>
    match h : spdScan endId distance ((adjGet adj id).getD []) visited rest with
    | none => some (distance + 1)
    | some out => spdLoop adj endId out.2 out.1
termination_by q v => unvis (adjUniv adj) v + q.length
decreasing_by
  have hsub : ∀ n ∈ (adjGet adj id).getD [], n ∈ adjUniv adj := by
    rcases hg : adjGet adj id with _ | ns
    · simp
    · simpa using mem_adjUniv_of_adjGet hg
  have := spdScan_measure endId distance (adjUniv adj)
    ((adjGet adj id).getD []) visited rest out hsub h
  simp only [List.length_cons]
  omega

/-- `getShortestPathDistance(startId, endId, adjList)` of `graphUtils.ts`;
`none` stands for the JS `Infinity` (no path). -/
def getShortestPathDistance (startId endId : String) (adjList : Adj) : Option Nat :=
  if startId == endId then some 0
  else spdLoop adjList endId [(startId, 0)] [startId]

/-- `distance < shortestDistance` with `none` as `Infinity`. -/
def optDistLt (a b : Option Nat) : Bool :=
  match a, b with
  | some x, some y => x < y
  | some _, none => true
  | none, _ => false

/-- `map.set` on the community map (overwrite if present, else append). -/
def mapSetNat (m : List (String × Nat)) (k : String) (v : Nat) : List (String × Nat) :=
  if List.any m (fun p => p.1 == k) then
    List.map (fun p => if p.1 == k then (k, v) else p) m
  else m ++ [(k, v)]

/-- `map.get` on the community map. -/
def mapGetNat (m : List (String × Nat)) (k : String) : Option Nat :=
  (List.find? (fun p => p.1 == k) m).map (fun p => p.2)

/-- `list.indexOf(a)` (first index, `0` is also returned when absent — the
source only calls it on members). -/
def idxOf (l : List String) (a : String) : Nat :=
  match l with
  | [] => 0
  | b :: rest => if b == a then 0 else idxOf rest a + 1

/-- `detectCommunities(nodes, algorithm, links)` of `graphUtils.ts`:
`louvain` buckets by `min(9, floor(degree/2))`; `girvan-newman` assigns each
node to the community of its BFS-nearest seed among `min(10, max(3,
floor(n/20)))` evenly spaced seeds; anything else hashes the lowercased
first character of the id mod 10 (for an empty id the JS `charCodeAt`
yields `NaN`; the embedding uses `0` for that degenerate case). -/
def detectCommunities (nodes : List GNode) (algorithm : String) (links : List GLink) :
    List (String × Nat) :=
  let adjacencyList := buildAdjacencyList nodes links
  if algorithm = "louvain" then
    nodes.foldl (fun communities node =>
      let degree := ((adjGet adjacencyList node.id).getD []).length
      mapSetNat communities node.id (min 9 (degree / 2))) []
  else if algorithm = "girvan-newman" then
    let seedCount := min 10 (max 3 (nodes.length / 20))
    let seeds : List String := (List.range seedCount).filterMap (fun i =>
      (nodes.get? (((i : ℚ) * ((nodes.length : ℚ) / (seedCount : ℚ))).floor.toNat)).map
        (fun n => n.id))
    nodes.foldl (fun communities node =>
      if seeds.contains node.id then mapSetNat communities node.id (idxOf seeds node.id)
      else
        let closest := seeds.foldl (fun (acc : String × Option Nat) seed =>
          let distance := getShortestPathDistance node.id seed adjacencyList
          if optDistLt distance acc.2 then (seed, distance) else acc)
          (seeds.headD "", none)
        mapSetNat communities node.id (idxOf seeds closest.1)) []
  else
    nodes.foldl (fun communities node =>
      let communityIndex := match node.id.toList with
        | c :: _ => c.toLower.toNat % 10
        | [] => 0
      mapSetNat communities node.id communityIndex) []

/-- `Math.max(...communities.values())` (the source evaluates it only with a
nonempty map, where the `0` base of the fold is absorbed). -/
def maxCommunityValue (m : List (String × Nat)) : Nat :=
  m.foldl (fun acc p => max acc p.2) 0

/-- JS `String.prototype.startsWith` (character-level prefix test). -/
def jsStartsWith (s p : String) : Bool := p.toList.isPrefixOf s.toList

/-- `applyColorScheme(nodes, colorScheme, communityDetection, links)` of
`graphUtils.ts`.  The d3 gradient interpolators are external library
functions, passed in as the family `d3interp scheme t`.  The `default`
branch resets the colour of every node whose colour is falsy **or starts
with `#`/`rgb`/`hsl`** to `#6366f1`. -/
def applyColorScheme (d3interp : String → ℚ → String) (nodes : List GNode)
    (colorScheme : String) (communityDetection : String) (links : List GLink) :
    List GNode :=
  if colorScheme = "default" then
    nodes.map (fun node =>
      let falsy := match node.color with
        | none => true
        | some s => s == ""
      if falsy || jsStartsWith (node.color.getD "") "#" ||
          jsStartsWith (node.color.getD "") "rgb" || jsStartsWith (node.color.getD "") "hsl" then
        { node with color := some "#6366f1" }
      else node)
  else
    let communities : Option (List (String × Nat)) :=
      if communityDetection ≠ "none" then some (detectCommunities nodes communityDetection links)
      else none
    nodes.enum.map (fun p =>
      let i := p.1
      let node := p.2
      let colorValue : ℚ :=
        match communities.bind (fun com => (mapGetNat com node.id).map (fun ci => (com, ci))) with
        | some q =>
          let maxCommunity := max 1 (maxCommunityValue q.1)
          (q.2 : ℚ) / (maxCommunity : ℚ)
        | none => (i : ℚ) / ((max 1 (nodes.length - 1) : Nat) : ℚ)
      let newColor : String :=
        if colorScheme = "viridis" then d3interp "viridis" colorValue
        else if colorScheme = "plasma" then d3interp "plasma" colorValue
        else if colorScheme = "rainbow" then d3interp "rainbow" colorValue
        else if colorScheme = "magma" then d3interp "magma" colorValue
        else if colorScheme = "inferno" then d3interp "inferno" colorValue
        else if colorScheme = "turbo" then d3interp "turbo" colorValue
        else if colorScheme = "cividis" then d3interp "cividis" colorValue
        else "#6366f1"
      { node with color := some newColor })

/-! ## `GraphHighlighting.ts`: path highlighting -/

/-- A clause extracted from the LLM response
(`{entity1, relation, entity2}`). -/
structure Clause where
  entity1 : String
  relation : String
  entity2 : String
deriving DecidableEq, Repr

/-- `resetHighlighting(nodes, links, …)`, data-model part: clear all
highlight flags, tooltip text and highlight labels (the DOM updates only
redraw from this state). -/
def resetHighlighting (nodes : List GNode) (links : List GLink) :
    List GNode × List GLink :=
  (nodes.map (fun node => { node with isHighlighted := false, tooltipText := none }),
   links.map (fun link => { link with isHighlighted := false, highlightLabel := none }))

/-- Mutation of the found path edge inside the link list (the source
mutates the object `links.find` returned; `edgeIndex` identifies that
object across earlier mutations of the same highlighting pass). -/
def updateFirstLink (e : GLink) (f : GLink → GLink) : List GLink → List GLink
  | [] => []
  | l :: rest =>
    if l.edgeIndex == e.edgeIndex then f l :: rest else l :: updateFirstLink e f rest

/-- `entityExamples[entityName]` on the `Record<string, string>`. -/
def recordGet (m : List (String × String)) (k : String) : Option String :=
  (List.find? (fun p => p.1 == k) m).map (fun p => p.2)

/-- The node mutation applied to each endpoint of a highlighted path edge:
highlight, select, pin at the current position (unconditionally), and set
the tooltip from `entityExamples` when a clause entity has an example. -/
def highlightEndpoint (entityName : Option String)
    (entityExamples : Option (List (String × String))) (n0 : GNode) : GNode :=
  let n := { n0 with isHighlighted := true, isSelected := true }
  let n := match n.x, n.y with
    | some px, some py => { n with fx := NVal.val px, fy := NVal.val py }
    | _, _ => n
  match entityName, entityExamples with
  | some name, some examples =>
    match recordGet examples name with
    | some exampleText => { n with tooltipText := some exampleText }
    | none => n
  | _, _ => n

/-- The `for (let i = 0; i < path.length; i++)` loop of `highlightPath`:
mark each path edge and its endpoints. -/
def applyPathHighlights (extractedEdges : List String)
    (clauses : Option (List Clause)) (entityExamples : Option (List (String × String))) :
    List (Nat × GLink) → List GNode × List GLink → List GNode × List GLink
  | [], st => st
  | (i, edge) :: rest, st =>
    let links1 := updateFirstLink edge (fun l =>
      { l with isHighlighted := true, highlightLabel := some (extractedEdges.getD i "") }) st.2
    let clause := clauses.bind (fun cs => cs.get? i)
    let nodes1 := updateFirstNode edge.sourceId
      (highlightEndpoint (clause.map (fun c => c.entity1)) entityExamples) st.1
    let nodes2 := updateFirstNode edge.targetId
      (highlightEndpoint (clause.map (fun c => c.entity2)) entityExamples) nodes1
    applyPathHighlights extractedEdges clauses entityExamples rest (nodes2, links1)

/-- `highlightPath(extractedEdges, nodes, links, …, clauses?,
entityExamples?)` of `GraphHighlighting.ts`.  The first component is the
node/link state after the call; the second is `some ()` when the function
returned (its TS return type is `void`, so `()` is all a caller can see)
and `none` when the unbounded path search never returned. -/
def highlightPathF (fuel : Nat) (o : Nat → Nat) (extractedEdges : List String)
    (nodes : List GNode) (links : List GLink) (clauses : Option (List Clause))
    (entityExamples : Option (List (String × String))) :
    (List GNode × List GLink) × Option Unit :=
  if nodes.isEmpty ∨ links.isEmpty ∨ extractedEdges.isEmpty then ((nodes, links), some ())
  else
    let reset := resetHighlighting nodes links
    let pathLength := extractedEdges.length
    match findRandomPathFuel fuel o pathLength reset.1 reset.2 with
    | none => (reset, none)
    | some none => (reset, some ())
    | some (some path) =>
      if path.length < pathLength then (reset, some ())
      else
        (applyPathHighlights extractedEdges clauses entityExamples path.enum reset, some ())

/-! ## `fitGraphToView` (GraphRenderer.tsx) -/

/-- JS double arithmetic restricted to what `fitGraphToView` exercises:
exact rationals plus `Infinity`, `-Infinity` and `NaN` (`-0` is collapsed
into `0`, which none of the operations used below can distinguish). -/
inductive JsNum where
  | nan : JsNum
  | inf : JsNum
  | ninf : JsNum
  | fin : ℚ → JsNum
deriving DecidableEq, Repr

/-- JS unary minus. -/
def jneg : JsNum → JsNum
  | JsNum.nan => JsNum.nan
  | JsNum.inf => JsNum.ninf
  | JsNum.ninf => JsNum.inf
  | JsNum.fin a => JsNum.fin (-a)

/-- JS addition. -/
def jadd : JsNum → JsNum → JsNum
  | JsNum.nan, _ => JsNum.nan
  | _, JsNum.nan => JsNum.nan
  | JsNum.inf, JsNum.ninf => JsNum.nan
  | JsNum.ninf, JsNum.inf => JsNum.nan
  | JsNum.inf, _ => JsNum.inf
  | _, JsNum.inf => JsNum.inf
  | JsNum.ninf, _ => JsNum.ninf
  | _, JsNum.ninf => JsNum.ninf
  | JsNum.fin a, JsNum.fin b => JsNum.fin (a + b)

/-- JS subtraction. -/
def jsub (a b : JsNum) : JsNum := jadd a (jneg b)

/-- JS multiplication (`±Infinity * 0 = NaN`, `0 * NaN = NaN`). -/
def jmul : JsNum → JsNum → JsNum
  | JsNum.nan, _ => JsNum.nan
  | _, JsNum.nan => JsNum.nan
  | JsNum.inf, JsNum.inf => JsNum.inf
  | JsNum.inf, JsNum.ninf => JsNum.ninf
  | JsNum.ninf, JsNum.inf => JsNum.ninf
  | JsNum.ninf, JsNum.ninf => JsNum.inf
  | JsNum.inf, JsNum.fin b =>
    if b = 0 then JsNum.nan else if 0 < b then JsNum.inf else JsNum.ninf
  | JsNum.fin a, JsNum.inf =>
    if a = 0 then JsNum.nan else if 0 < a then JsNum.inf else JsNum.ninf
  | JsNum.ninf, JsNum.fin b =>
    if b = 0 then JsNum.nan else if 0 < b then JsNum.ninf else JsNum.inf
  | JsNum.fin a, JsNum.ninf =>
    if a = 0 then JsNum.nan else if 0 < a then JsNum.ninf else JsNum.inf
  | JsNum.fin a, JsNum.fin b => JsNum.fin (a * b)

/-- JS division (signed zeros collapsed; `fitGraphToView` never divides by
a finite zero on the inputs the claims quantify over). -/
def jdiv : JsNum → JsNum → JsNum
  | JsNum.nan, _ => JsNum.nan
  | _, JsNum.nan => JsNum.nan
  | JsNum.inf, JsNum.inf => JsNum.nan
  | JsNum.inf, JsNum.ninf => JsNum.nan
  | JsNum.ninf, JsNum.inf => JsNum.nan
  | JsNum.ninf, JsNum.ninf => JsNum.nan
  | JsNum.inf, JsNum.fin b => if 0 ≤ b then JsNum.inf else JsNum.ninf
  | JsNum.ninf, JsNum.fin b => if 0 ≤ b then JsNum.ninf else JsNum.inf
  | JsNum.fin _, JsNum.inf => JsNum.fin 0
  | JsNum.fin _, JsNum.ninf => JsNum.fin 0
  | JsNum.fin a, JsNum.fin b =>
    if b = 0 then (if a = 0 then JsNum.nan else if 0 < a then JsNum.inf else JsNum.ninf)
    else JsNum.fin (a / b)

/-- `Math.min` (NaN-propagating). -/
def jmin : JsNum → JsNum → JsNum
  | JsNum.nan, _ => JsNum.nan
  | _, JsNum.nan => JsNum.nan
  | JsNum.ninf, _ => JsNum.ninf
  | _, JsNum.ninf => JsNum.ninf
  | JsNum.inf, b => b
  | a, JsNum.inf => a
  | JsNum.fin a, JsNum.fin b => JsNum.fin (min a b)

/-- `Math.max` (NaN-propagating). -/
def jmax : JsNum → JsNum → JsNum
  | JsNum.nan, _ => JsNum.nan
  | _, JsNum.nan => JsNum.nan
  | JsNum.inf, _ => JsNum.inf
  | _, JsNum.inf => JsNum.inf
  | JsNum.ninf, b => b
  | a, JsNum.ninf => a
  | JsNum.fin a, JsNum.fin b => JsNum.fin (max a b)

/-- A d3 zoom transform `{k, x, y}`. -/
structure ZoomTransform where
  k : JsNum
  x : JsNum
  y : JsNum
deriving DecidableEq, Repr

/-- `transform.translate(a, b)` of d3-zoom:
`(k, x + k*a, y + k*b)`. -/
def ztTranslate (t : ZoomTransform) (a b : JsNum) : ZoomTransform :=
  { k := t.k, x := jadd t.x (jmul t.k a), y := jadd t.y (jmul t.k b) }

/-- `transform.scale(s)` of d3-zoom: `(k*s, x, y)`. -/
def ztScale (t : ZoomTransform) (s : JsNum) : ZoomTransform :=
  { k := jmul t.k s, x := t.x, y := t.y }

/-- `d3.zoomIdentity`. -/
def zoomIdentity : ZoomTransform :=
  { k := JsNum.fin 1, x := JsNum.fin 0, y := JsNum.fin 0 }

/-- Body of the `nodes.forEach` bounds loop of `fitGraphToView`: skip nodes
without a position, otherwise extend the `(minX, minY, maxX, maxY)` box by
the node's radius. -/
def fitBoundsStep (b : JsNum × JsNum × JsNum × JsNum) (node : GNode) :
    JsNum × JsNum × JsNum × JsNum :=
  match node.x, node.y with
  | some nx, some ny =>
    (jmin b.1 (JsNum.fin (nx - node.r)),
     jmin b.2.1 (JsNum.fin (ny - node.r)),
     jmax b.2.2.1 (JsNum.fin (nx + node.r)),
     jmax b.2.2.2 (JsNum.fin (ny + node.r)))
  | _, _ => b

/-- `fitGraphToView()` of `GraphRenderer.tsx` (lines 216–258): bounding box
over nodes with defined positions (starting from `±Infinity`), padding 40,
scale `min(width/w, height/h, 2)`, and the d3 transform
`zoomIdentity.translate(width/2, height/2).scale(scale).translate(-cx, -cy)`;
`none` is the bare `return` on an empty node list (the caller applies the
transform only `if (transform)`). -/
def fitGraphToView (nodes : List GNode) (width height : ℚ) : Option ZoomTransform :=
  if nodes.isEmpty then none
  else
    let b := nodes.foldl fitBoundsStep (JsNum.inf, JsNum.inf, JsNum.ninf, JsNum.ninf)
    let minX := jsub b.1 (JsNum.fin 40)
    let minY := jsub b.2.1 (JsNum.fin 40)
    let maxX := jadd b.2.2.1 (JsNum.fin 40)
    let maxY := jadd b.2.2.2 (JsNum.fin 40)
    let graphWidth := jsub maxX minX
    let graphHeight := jsub maxY minY
    let scaleX := jdiv (JsNum.fin width) graphWidth
    let scaleY := jdiv (JsNum.fin height) graphHeight
    let scale := jmin (jmin scaleX scaleY) (JsNum.fin 2)
    let centerX := jdiv (jadd minX maxX) (JsNum.fin 2)
    let centerY := jdiv (jadd minY maxY) (JsNum.fin 2)
    some (ztTranslate
      (ztScale (ztTranslate zoomIdentity (JsNum.fin (width / 2)) (JsNum.fin (height / 2))) scale)
      (jneg centerX) (jneg centerY))

/-! ## Concrete fixtures -/

/-- A fresh node: defined position, unselected, unpinned, default colour. -/
def demoNode (id : String) (px py : ℚ) : GNode :=
  { id := id, label := id, r := 5, index := 0, x := some px, y := some py,
    fx := NVal.undef, fy := NVal.undef, vx := 0, vy := 0,
    isSelected := false, isHighlighted := false,
    color := some "#6366f1", tooltipText := none }

/-- A link as produced by `transformGraphData`. -/
def demoLink (a b : String) (i : Nat) : GLink :=
  { sourceId := a, targetId := b, type := "t", edgeIndex := i, length := 30,
    relevanceScore := 0, isHighlighted := false, highlightLabel := some "" }

/-- A two-node graph `a – b`, freshly loaded. -/
def freshAB : List GNode := [demoNode "a" 1 2, demoNode "b" 3 4]

/-- The single link of the `a – b` graph. -/
def linkAB : GLink := demoLink "a" "b" 0

/-- An anchor-free interaction state over `freshAB`. -/
def freshState : ClickState :=
  { nodes := freshAB,
    neighborhoodSelection := { sourceNodeId := none, currentDepth := 0 },
    exactLayerSelection := { sourceNodeId := none, currentLayer := 0 } }

/-- A node that no link references: a start the random walk cannot leave. -/
def isolatedC : GNode := demoNode "c" 0 0

/-! ## C10 -/

/-- C10: with an empty edge list, both `selectNodeNeighborhood` and
`selectExactLayer` return without modifying any node's selected flag or
fixed position — the whole node list is returned unchanged, so in
particular the clicked node is neither selected nor pinned. -/
theorem c10_empty_links_noop (s : String) (d : Nat) (nodes : List GNode) :
    selectNodeNeighborhood s d nodes [] = nodes ∧
    selectExactLayer s d nodes [] = nodes := by
  constructor
  · unfold selectNodeNeighborhood
    simp
  · unfold selectExactLayer
    simp

/-! ## C9 -/

/-- A node that has not yet been given a position by the simulation. -/
def unplacedNode : GNode := { demoNode "a" 0 0 with x := none, y := none }

theorem fitBoundsStep_skip {node : GNode} (h : node.x = none ∨ node.y = none)
    (b : JsNum × JsNum × JsNum × JsNum) : fitBoundsStep b node = b := by
  unfold fitBoundsStep
  rcases h with hx | hy
  · rw [hx]
  · rw [hy]
    rcases node.x with _ | v <;> rfl

theorem fitBounds_skip_all (nodes : List GNode)
    (hpos : ∀ n ∈ nodes, n.x = none ∨ n.y = none) :
    ∀ init : JsNum × JsNum × JsNum × JsNum, nodes.foldl fitBoundsStep init = init := by
  induction nodes with
  | nil => intro init; rfl
  | cons n rest ih =>
    intro init
    rw [List.foldl_cons, fitBoundsStep_skip (hpos n (List.mem_cons_self _ _))]
    exact ih (fun m hm => hpos m (List.mem_cons_of_mem _ hm)) init

/-- On a nonempty node set with no defined positions, `fitGraphToView`
returns the `NaN` transform (helper shared by the C9 theorems). -/
theorem fit_nan_all_unplaced (nodes : List GNode) (width height : ℚ)
    (hne : nodes ≠ []) (hpos : ∀ n ∈ nodes, n.x = none ∨ n.y = none) :
    fitGraphToView nodes width height =
      some { k := JsNum.fin 0, x := JsNum.nan, y := JsNum.nan } := by
  have hnodes : nodes.isEmpty = false := by
    cases nodes with
    | nil => exact absurd rfl hne
    | cons a l => rfl
  unfold fitGraphToView
  rw [hnodes, fitBounds_skip_all nodes hpos]
  simp only [Bool.false_eq_true, if_false]
  show some _ = _
  congr 1
  simp only [ztTranslate, ztScale, zoomIdentity, jneg, jadd, jsub, jmul, jdiv, jmin, jmax]
  norm_num

/-- C9 counterexample: on a nonempty node set in which no node has a
defined position, `fitGraphToView` does *not* return "no transform": it
returns a transform whose translate components are `NaN` (and scale `0`),
contradicting the claim that it never produces a `NaN` transform. -/
theorem c9_counterexample :
    fitGraphToView [unplacedNode] 800 600 =
      some { k := JsNum.fin 0, x := JsNum.nan, y := JsNum.nan } :=
  fit_nan_all_unplaced [unplacedNode] 800 600 (by simp)
    (by intro n hn; rcases List.mem_singleton.mp hn with rfl; left; rfl)

/-- C9 (amended): with zero nodes `fitGraphToView` returns no transform;
with a nonempty node set in which no node has a defined position it
returns the transform with scale `0` and `NaN` translate components. -/
theorem c9_amended (nodes : List GNode) (width height : ℚ) :
    (nodes = [] → fitGraphToView nodes width height = none) ∧
    (nodes ≠ [] → (∀ n ∈ nodes, n.x = none ∨ n.y = none) →
      fitGraphToView nodes width height =
        some { k := JsNum.fin 0, x := JsNum.nan, y := JsNum.nan }) := by
  constructor
  · intro h; subst h; rfl
  · intro hne hpos
    exact fit_nan_all_unplaced nodes width height hne hpos

/-- C9 witness: both branches of the amended statement at concrete inputs. -/
theorem c9_amended_witness :
    fitGraphToView [] 800 600 = none ∧
    fitGraphToView [unplacedNode] 800 600 =
      some { k := JsNum.fin 0, x := JsNum.nan, y := JsNum.nan } :=
  ⟨(c9_amended [] 800 600).1 rfl,
   (c9_amended [unplacedNode] 800 600).2 (by simp)
     (by intro n hn; rcases List.mem_singleton.mp hn with rfl; left; rfl)⟩

/-! ## C8 -/

/-- A node carrying a colour the user picked in the colour picker (the
picker produces hex strings). -/
def manualColorNode : GNode := { demoNode "a" 1 2 with color := some "#ff0000" }

/-- C8: applying the `default` colour scheme *overwrites* a user-picked hex
colour with the default `#6366f1` — the `!node.color || startsWith('#')…`
test resets exactly the colours its own comment says it should preserve
(`// Set to default color unless it has a custom color`). -/
theorem c8_default_overwrites_manual_color (d3interp : String → ℚ → String) :
    (applyColorScheme d3interp [manualColorNode] "default" "none" []).map
      (fun n => n.color) = [some "#6366f1"] := by
  rfl

/-! ## C1 -/

/-- C1: a single exact-layer interaction (M-held click on `a`) on the fresh
two-node graph `a – b` ends with `b` selected **and unpinned**
(`fx = null`): the deselect-everything phase sets `fx = null`, and the
re-pin check `fx === undefined` does not treat `null` as unfixed.  The
selection invariant "selected ⇔ pinned after an interaction completes" is
violated by the code. -/
theorem c1_selected_but_unpinned :
    ((handleNodeClick false false true 0 freshState [linkAB]).nodes.map
      (fun n => (n.isSelected, n.fx))) =
      [(true, NVal.val 1), (true, NVal.null)] := by
  simp [handleNodeClick, selectExactLayer, findNodesAtDepths, bfsLoop, processNeighbors,
    lvlAdd, adjGet, buildAdjacencyList, adjSet, adjAdd, updateFirstNode, selectAndPin,
    freshState, freshAB, demoNode, linkAB, demoLink, List.find?]

/-! ## C2 -/

/-- Node `a`, selected and pinned. -/
def anchorNodeA : GNode :=
  { demoNode "a" 1 2 with isSelected := true, fx := NVal.val 1, fy := NVal.val 2 }

/-- An interaction state in which node `a` is the current source of *both*
anchors, with nonzero depth and layer. -/
def anchoredState : ClickState :=
  { nodes := [anchorNodeA, demoNode "b" 3 4],
    neighborhoodSelection := { sourceNodeId := some "a", currentDepth := 3 },
    exactLayerSelection := { sourceNodeId := some "a", currentLayer := 2 } }

/-- C2 counterexample: shift+clicking `a` while `a` is the
`exactLayerSelection` source leaves that anchor's `currentLayer` at `2` —
the handler resets only the neighborhood anchor, never the exact-layer
anchor, contradicting the claim that both are reset to 0. -/
theorem c2_counterexample :
    (handleNodeClick true false false 0 anchoredState [linkAB]).exactLayerSelection =
      { sourceNodeId := some "a", currentLayer := 2 } := by
  rfl

/-- C2 (amended): shift+click sets the clicked node's `selected` to
`false` and clears its fixed position (to `null`); if the node is the
`neighborhoodAnchor` source, that anchor's depth is reset to 0; the
`exactLayerAnchor` is left unchanged even when the node is its source. -/
theorem c2_amended (isNPressed isMPressed : Bool) (clickedIdx : Nat)
    (st : ClickState) (links : List GLink) (d : GNode)
    (h : st.nodes.get? clickedIdx = some d) :
    ((handleNodeClick true isNPressed isMPressed clickedIdx st links).nodes.get? clickedIdx =
      some { d with isSelected := false, fx := NVal.null, fy := NVal.null }) ∧
    (st.neighborhoodSelection.sourceNodeId = some d.id →
      (handleNodeClick true isNPressed isMPressed clickedIdx st links).neighborhoodSelection =
        { st.neighborhoodSelection with currentDepth := 0 }) ∧
    (handleNodeClick true isNPressed isMPressed clickedIdx st links).exactLayerSelection =
      st.exactLayerSelection := by
  have hlt : clickedIdx < st.nodes.length := by
    by_cases hc : clickedIdx < st.nodes.length
    · exact hc
    · rw [List.get?_eq_none.mpr (by omega)] at h
      cases h
  unfold handleNodeClick
  rw [h]
  simp only [if_true]
  refine ⟨?_, ?_, ?_⟩
  · simp [List.get?_eq_getElem?, List.getElem?_set_self', List.getElem?_eq_getElem hlt]
  · intro hsrc
    rw [if_pos hsrc]
  · trivial

/-- C2 witness: the amended statement applied to the anchored fixture. -/
theorem c2_amended_witness :
    ((handleNodeClick true false false 0 anchoredState [linkAB]).nodes.get? 0 =
      some { anchorNodeA with isSelected := false, fx := NVal.null, fy := NVal.null }) ∧
    ((handleNodeClick true false false 0 anchoredState [linkAB]).neighborhoodSelection =
      { sourceNodeId := some "a", currentDepth := 0 }) ∧
    (handleNodeClick true false false 0 anchoredState [linkAB]).exactLayerSelection =
      { sourceNodeId := some "a", currentLayer := 2 } := by
  have h := c2_amended false false 0 anchoredState [linkAB] anchorNodeA rfl
  refine ⟨h.1, ?_, h.2.2⟩
  have h2 := h.2.1 rfl
  rw [h2]
  rfl

/-! ## C7 -/

/-- C7: `findRandomPath` does **not** terminate on every input: on a graph
whose only node has no neighbours (here: node `c`, with a link whose
endpoints are not in the node list, so the guard `!links.length` passes),
every attempt dead-ends at the first step and the source retries by
unbounded recursion — the fuelled model runs out of fuel for *every* fuel
and *every* random oracle, i.e. the recursion never returns. -/
theorem c7_unbounded_retry_diverges :
    findRandomPathDiverges 1 [isolatedC] [linkAB] := by
  intro fuel
  induction fuel with
  | zero => intro o; rfl
  | succ n ih =>
    intro o
    show findRandomPathFuel (n + 1) o 1 [isolatedC] [linkAB] = none
    have hwalk : randomWalk (buildAdjacencyList [isolatedC] [linkAB]) [linkAB] 1
        (fun k => o (k + 1)) isolatedC.id [] = ([], fun k => o (k + 1)) := by
      rfl
    simp only [findRandomPathFuel]
    rw [show (o 0 % [isolatedC].length) = 0 from Nat.mod_one _]
    simp only [List.get?, hwalk]
    simp only [List.length_nil, if_true, Nat.lt_irrefl]
    exact ih (fun k => o (k + 1))

/-! ## C6 -/

/-- The highlight operation never returns on this input: for every fuel
and oracle the path search is still retrying, the return channel is empty
(`none`), and the shared node/link state holds the reset (all highlights
cleared). -/
def highlightNeverReturns (extractedEdges : List String) (nodes : List GNode)
    (links : List GLink) (clauses : Option (List Clause))
    (entityExamples : Option (List (String × String))) : Prop :=
  ∀ (fuel : Nat) (o : Nat → Nat),
    highlightPathF fuel o extractedEdges nodes links clauses entityExamples =
      (resetHighlighting nodes links, none)

/-- C6 counterexample: on a graph where no path of the requested length
can be found (the only node has no neighbours), `highlightPath` never
completes — no result value is ever produced for the caller, so the
failure is *not* reported through a result value distinguishable from
success; only the cleared highlight state is observable. -/
theorem c6_counterexample :
    highlightNeverReturns ["t"] [isolatedC] [linkAB] none none := by
  intro fuel o
  show highlightPathF fuel o ["t"] [isolatedC] [linkAB] none none = _
  have hdiv : ∀ (f : Nat) (o' : Nat → Nat),
      findRandomPathFuel f o' 1 [isolatedC]
        [{ linkAB with isHighlighted := false, highlightLabel := none }] = none := by
    intro f
    induction f with
    | zero => intro o'; rfl
    | succ n ih =>
      intro o'
      show findRandomPathFuel (n + 1) o' 1 _ _ = none
      simp only [findRandomPathFuel]
      rw [show (o' 0 % [isolatedC].length) = 0 from Nat.mod_one _]
      simp only [List.get?]
      have hwalk : randomWalk
          (buildAdjacencyList [isolatedC]
            [{ linkAB with isHighlighted := false, highlightLabel := none }])
          [{ linkAB with isHighlighted := false, highlightLabel := none }] 1
          (fun k => o' (k + 1)) isolatedC.id [] = ([], fun k => o' (k + 1)) := by
        rfl
      rw [hwalk]
      simp only [List.length_nil, if_true, Nat.lt_irrefl]
      exact ih (fun k => o' (k + 1))
  simp only [highlightPathF]
  rw [if_neg (by simp)]
  have hreset : resetHighlighting [isolatedC] [linkAB] =
      ([isolatedC], [{ linkAB with isHighlighted := false, highlightLabel := none }]) := by
    rfl
  rw [hreset]
  rw [show findRandomPathFuel fuel o (["t"] : List String).length [isolatedC]
      [{ linkAB with isHighlighted := false, highlightLabel := none }] = none from hdiv fuel o]

/-- C6 (amended): when the path search does not succeed, nothing is
reported to the caller: if the search (fuelled) has not returned, the
highlight call has not returned either, and the shared state holds the
reset — every previous highlight flag, label and tooltip stays cleared. -/
theorem c6_amended (fuel : Nat) (o : Nat → Nat) (extractedEdges : List String)
    (nodes : List GNode) (links : List GLink) (clauses : Option (List Clause))
    (entityExamples : Option (List (String × String)))
    (hed : extractedEdges ≠ []) (hn : nodes ≠ []) (hl : links ≠ [])
    (hsearch : findRandomPathFuel fuel o extractedEdges.length
      (resetHighlighting nodes links).1 (resetHighlighting nodes links).2 = none) :
    highlightPathF fuel o extractedEdges nodes links clauses entityExamples =
      (resetHighlighting nodes links, none) := by
  have h1 : nodes.isEmpty = false := by cases nodes with
    | nil => exact absurd rfl hn
    | cons a l => rfl
  have h2 : links.isEmpty = false := by cases links with
    | nil => exact absurd rfl hl
    | cons a l => rfl
  have h3 : extractedEdges.isEmpty = false := by cases extractedEdges with
    | nil => exact absurd rfl hed
    | cons a l => rfl
  simp only [highlightPathF, h1, h2, h3]
  rw [if_neg (by simp)]
  rw [hsearch]

/-- C6 witness: the amended statement at the divergent fixture, with the
search-failure hypothesis discharged by computation. -/
theorem c6_amended_witness :
    highlightPathF 2 (fun _ => 0) ["t"] [isolatedC] [linkAB] none none =
      (resetHighlighting [isolatedC] [linkAB], none) :=
  c6_amended 2 (fun _ => 0) ["t"] [isolatedC] [linkAB] none none
    (by simp) (by simp) (by simp) (by rfl)

/-! ## BFS correctness: `findNodesAtDepths` levels are exact-distance sets

The claims C3/C4 speak of "the set of nodes whose BFS distance from the
anchor is `k`".  `reachInB` above is the specification-level reachability;
this section proves that the FIFO-queue BFS of the source computes exactly
the distance layers of that specification. -/

theorem reachInB_succ_iff (adj : Adj) (s : String) (n : Nat) (v : String) :
    reachInB adj s (n + 1) v = true ↔
    (reachInB adj s n v = true ∨
      ∃ u, u ∈ s :: adjUniv adj ∧ reachInB adj s n u = true ∧
        v ∈ (adjGet adj u).getD []) := by
  simp only [reachInB, Bool.or_eq_true, List.any_eq_true, Bool.and_eq_true]
  constructor
  · rintro (h | ⟨u, hu, hr, hc⟩)
    · exact Or.inl h
    · refine Or.inr ⟨u, hu, hr, ?_⟩
      rw [contains_decide] at hc
      simpa using hc
  · rintro (h | ⟨u, hu, hr, hc⟩)
    · exact Or.inl h
    · refine Or.inr ⟨u, hu, hr, ?_⟩
      rw [contains_decide]
      simpa using hc

theorem reachInB_zero_iff (adj : Adj) (s v : String) :
    reachInB adj s 0 v = true ↔ v = s := by
  simp [reachInB]

theorem reachInB_mono_succ (adj : Adj) (s : String) (n : Nat) (v : String)
    (h : reachInB adj s n v = true) : reachInB adj s (n + 1) v = true := by
  rw [reachInB_succ_iff]
  exact Or.inl h

theorem reachInB_mono (adj : Adj) (s : String) {n m : Nat} (hnm : n ≤ m) (v : String)
    (h : reachInB adj s n v = true) : reachInB adj s m v = true := by
  induction m with
  | zero => have : n = 0 := by omega
            subst this; exact h
  | succ m ih =>
    by_cases hc : n = m + 1
    · subst hc; exact h
    · exact reachInB_mono_succ adj s m v (ih (by omega))

theorem reachInB_self (adj : Adj) (s : String) (n : Nat) :
    reachInB adj s n s = true :=
  reachInB_mono adj s (Nat.zero_le n) s ((reachInB_zero_iff adj s s).mpr rfl)

theorem reachInB_mem_univ (adj : Adj) (s : String) (n : Nat) (v : String)
    (h : reachInB adj s n v = true) : v ∈ s :: adjUniv adj := by
  induction n generalizing v with
  | zero => rw [reachInB_zero_iff] at h; subst h; exact List.mem_cons_self _ _
  | succ n ih =>
    rw [reachInB_succ_iff] at h
    rcases h with h | ⟨u, _, _, hc⟩
    · exact ih v h
    · rcases hg : adjGet adj u with _ | ns
      · rw [hg] at hc; cases hc
      · rw [hg] at hc
        exact List.mem_cons_of_mem _ (mem_adjUniv_of_adjGet hg v hc)

/-- `v` sits at exact BFS distance `d` from `s` (for `d = 0` this is
`v = s`). -/
def atDist (adj : Adj) (s : String) (d : Nat) (v : String) : Prop :=
  reachInB adj s d v = true ∧ (d = 0 ∨ reachInB adj s (d - 1) v = false)

theorem atDist_zero_iff (adj : Adj) (s v : String) :
    atDist adj s 0 v ↔ v = s := by
  unfold atDist
  rw [reachInB_zero_iff]
  tauto

theorem exists_atDist (adj : Adj) (s : String) (d : Nat) (v : String)
    (h : reachInB adj s d v = true) : ∃ j, j ≤ d ∧ atDist adj s j v := by
  induction d with
  | zero => exact ⟨0, Nat.le_refl 0, h, Or.inl rfl⟩
  | succ d ih =>
    by_cases hc : reachInB adj s d v = true
    · rcases ih hc with ⟨j, hj, hd⟩
      exact ⟨j, by omega, hd⟩
    · refine ⟨d + 1, Nat.le_refl _, h, Or.inr ?_⟩
      simp only [Nat.add_sub_cancel]
      revert hc; cases reachInB adj s d v <;> simp

theorem atDist_le_not_reach (adj : Adj) (s : String) {j d : Nat} (v : String)
    (hjd : j ≤ d) (ha : atDist adj s j v) (hnr : reachInB adj s d v = false) : False := by
  have := reachInB_mono adj s hjd v ha.1
  rw [hnr] at this
  cases this

/-- The frontier step: `v` is at distance `d+1` iff it is not within `d`
and some node at exact distance `d` has it as a neighbour. -/
theorem atDist_succ_iff (adj : Adj) (s : String) (d : Nat) (v : String) :
    atDist adj s (d + 1) v ↔
    (reachInB adj s d v = false ∧
      ∃ u, atDist adj s d u ∧ v ∈ (adjGet adj u).getD []) := by
  constructor
  · rintro ⟨hr, hor⟩
    have hnr : reachInB adj s d v = false := by
      rcases hor with h0 | h
      · cases h0
      · simpa using h
    refine ⟨hnr, ?_⟩
    rw [reachInB_succ_iff] at hr
    rcases hr with h | ⟨u, _, hru, hc⟩
    · rw [hnr] at h; cases h
    · rcases exists_atDist adj s d u hru with ⟨j, hj, hdj⟩
      rcases Nat.lt_or_ge j d with hlt | hge
      · exfalso
        have hstep : reachInB adj s (j + 1) v = true := by
          rw [reachInB_succ_iff]
          exact Or.inr ⟨u, reachInB_mem_univ adj s j u hdj.1, hdj.1, hc⟩
        have := reachInB_mono adj s (by omega : j + 1 ≤ d) v hstep
        rw [hnr] at this; cases this
      · have : j = d := by omega
        subst this
        exact ⟨u, hdj, hc⟩
  · rintro ⟨hnr, u, hdu, hc⟩
    refine ⟨?_, Or.inr (by simpa using hnr)⟩
    rw [reachInB_succ_iff]
    exact Or.inr ⟨u, reachInB_mem_univ adj s d u hdu.1, hdu.1, hc⟩

/-- Extension of level `d'` by a batch of nodes (guarded by the key
existing, i.e. `d' ≤ maxDepth`). -/
def lvlAppend (maxDepth : Nat) (levels : Lvl) (d' : Nat) (ns : List String) : Lvl :=
  if d' ≤ maxDepth then (fun k => if k = d' then levels d' ++ ns else levels k) else levels

theorem lvlAppend_nil (maxDepth : Nat) (levels : Lvl) (d' : Nat) :
    lvlAppend maxDepth levels d' [] = levels := by
  unfold lvlAppend
  by_cases h : d' ≤ maxDepth
  · rw [if_pos h]
    funext k
    by_cases hk : k = d'
    · subst hk; simp
    · rw [if_neg hk]
  · rw [if_neg h]

theorem lvlAdd_append (maxDepth : Nat) (levels : Lvl) (d' : Nat) (ns : List String)
    (n : String) :
    lvlAdd maxDepth (lvlAppend maxDepth levels d' ns) d' n =
      lvlAppend maxDepth levels d' (ns ++ [n]) := by
  unfold lvlAdd lvlAppend
  by_cases h : d' ≤ maxDepth
  · rw [if_pos h, if_pos h, if_pos h]
    funext k
    by_cases hk : k = d'
    · subst hk; simp
    · simp [hk]
  · rw [if_neg h, if_neg h, if_neg h]

theorem processNeighbors_split (maxDepth d : Nat) :
    ∀ (nbrs visited : List String) (queue : List (String × Nat)) (levels : Lvl),
    (processNeighbors maxDepth d nbrs visited queue levels).1 =
      (processNeighbors maxDepth d nbrs visited [] levels).1 ∧
    (processNeighbors maxDepth d nbrs visited queue levels).2.1 =
      queue ++ (processNeighbors maxDepth d nbrs visited [] levels).2.1 ∧
    (processNeighbors maxDepth d nbrs visited queue levels).2.2 =
      (processNeighbors maxDepth d nbrs visited [] levels).2.2 := by
  intro nbrs
  induction nbrs with
  | nil => intro visited queue levels; simp [processNeighbors]
  | cons n rest ih =>
    intro visited queue levels
    by_cases hc : visited.contains n = true
    · simp only [processNeighbors, hc, if_pos]
      exact ih visited queue levels
    · have hc' : visited.contains n = false := by revert hc; cases visited.contains n <;> simp
      simp only [processNeighbors, hc', Bool.false_eq_true, if_false]
      rcases ih (visited ++ [n]) (queue ++ [(n, d + 1)]) (lvlAdd maxDepth levels (d + 1) n)
        with ⟨h1, h2, h3⟩
      rcases ih (visited ++ [n]) ([] ++ [(n, d + 1)]) (lvlAdd maxDepth levels (d + 1) n)
        with ⟨h1', h2', h3'⟩
      refine ⟨by rw [h1, h1'], ?_, by rw [h3, h3']⟩
      rw [h2, h2']
      simp

/-- The visited list and queue produced by the neighbour scan do not
depend on the level map. -/
theorem processNeighbors_levels_indep (maxDepth d : Nat) :
    ∀ (nbrs visited : List String) (queue : List (String × Nat)) (levels levels2 : Lvl),
    (processNeighbors maxDepth d nbrs visited queue levels).1 =
      (processNeighbors maxDepth d nbrs visited queue levels2).1 ∧
    (processNeighbors maxDepth d nbrs visited queue levels).2.1 =
      (processNeighbors maxDepth d nbrs visited queue levels2).2.1 := by
  intro nbrs
  induction nbrs with
  | nil => intro visited queue levels levels2; simp [processNeighbors]
  | cons n rest ih =>
    intro visited queue levels levels2
    by_cases hc : visited.contains n = true
    · simp only [processNeighbors, hc, if_pos]
      exact ih visited queue levels levels2
    · have hc2 : visited.contains n = false := by revert hc; cases visited.contains n <;> simp
      simp only [processNeighbors, hc2, Bool.false_eq_true, if_false]
      exact ih (visited ++ [n]) (queue ++ [(n, d + 1)])
        (lvlAdd maxDepth levels (d + 1) n) (lvlAdd maxDepth levels2 (d + 1) n)

theorem lvlAppend_comp (maxDepth : Nat) (levels : Lvl) (d2 : Nat) (a b : List String) :
    lvlAppend maxDepth (lvlAppend maxDepth levels d2 a) d2 b =
      lvlAppend maxDepth levels d2 (a ++ b) := by
  unfold lvlAppend
  by_cases h : d2 ≤ maxDepth
  · rw [if_pos h, if_pos h, if_pos h]
    funext k
    by_cases hk : k = d2
    · subst hk; simp
    · simp [hk]
  · rw [if_neg h, if_neg h, if_neg h]

theorem lvlAdd_eq_append (maxDepth : Nat) (levels : Lvl) (d2 : Nat) (n : String) :
    lvlAdd maxDepth levels d2 n = lvlAppend maxDepth levels d2 [n] := by
  unfold lvlAdd lvlAppend
  by_cases h : d2 ≤ maxDepth <;> simp [h]

/-- The nodes newly discovered by one neighbour scan, in discovery order. -/
def pnDelta (maxDepth d : Nat) (nbrs visited : List String) : List String :=
  (processNeighbors maxDepth d nbrs visited [] (fun _ => [])).2.1.map Prod.fst

theorem processNeighbors_char (maxDepth d : Nat) :
    ∀ (nbrs visited : List String) (levels : Lvl),
    (processNeighbors maxDepth d nbrs visited [] levels).1 =
      visited ++ pnDelta maxDepth d nbrs visited ∧
    (processNeighbors maxDepth d nbrs visited [] levels).2.1 =
      (pnDelta maxDepth d nbrs visited).map (fun n => (n, d + 1)) ∧
    (processNeighbors maxDepth d nbrs visited [] levels).2.2 =
      lvlAppend maxDepth levels (d + 1) (pnDelta maxDepth d nbrs visited) := by
  intro nbrs
  induction nbrs with
  | nil =>
    intro visited levels
    simp [processNeighbors, pnDelta, lvlAppend_nil]
  | cons n rest ih =>
    intro visited levels
    by_cases hc : visited.contains n = true
    · have hd : pnDelta maxDepth d (n :: rest) visited = pnDelta maxDepth d rest visited := by
        unfold pnDelta
        simp only [processNeighbors, hc, if_pos]
      rw [hd]
      simp only [processNeighbors, hc, if_pos]
      exact ih visited levels
    · have hc2 : visited.contains n = false := by revert hc; cases visited.contains n <;> simp
      have hqind := (processNeighbors_levels_indep maxDepth d rest (visited ++ [n])
        ([] ++ [(n, d + 1)]) (lvlAdd maxDepth (fun _ => []) (d + 1) n)
        (lvlAdd maxDepth levels (d + 1) n)).2
      rcases processNeighbors_split maxDepth d rest (visited ++ [n]) ([] ++ [(n, d + 1)])
        (lvlAdd maxDepth levels (d + 1) n) with ⟨_, h2, h3⟩
      rcases ih (visited ++ [n]) (lvlAdd maxDepth levels (d + 1) n) with ⟨g1, g2, g3⟩
      have hd : pnDelta maxDepth d (n :: rest) visited =
          n :: pnDelta maxDepth d rest (visited ++ [n]) := by
        unfold pnDelta
        simp only [processNeighbors, hc2, Bool.false_eq_true, if_false]
        rw [hqind, h2, g2]
        rw [List.nil_append, List.map_append, List.map_map]
        rw [show (Prod.fst ∘ fun n : String => (n, d + 1)) = id from rfl, List.map_id]
        rfl
      rw [hd]
      simp only [processNeighbors, hc2, Bool.false_eq_true, if_false]
      refine ⟨?_, ?_, ?_⟩
      · rw [(processNeighbors_split maxDepth d rest (visited ++ [n]) ([] ++ [(n, d + 1)])
          (lvlAdd maxDepth levels (d + 1) n)).1, g1]
        simp
      · rw [h2, g2]
        simp
      · rw [h3, g3, lvlAdd_eq_append, lvlAppend_comp]
        rfl

theorem pnDelta_cons_seen (maxDepth d : Nat) {visited : List String} {n : String}
    (hc : visited.contains n = true) (rest : List String) :
    pnDelta maxDepth d (n :: rest) visited = pnDelta maxDepth d rest visited := by
  unfold pnDelta
  simp only [processNeighbors, hc, if_pos]

theorem pnDelta_cons_new (maxDepth d : Nat) {visited : List String} {n : String}
    (hc : visited.contains n = false) (rest : List String) :
    pnDelta maxDepth d (n :: rest) visited =
      n :: pnDelta maxDepth d rest (visited ++ [n]) := by
  unfold pnDelta
  simp only [processNeighbors, hc, Bool.false_eq_true, if_false]
  have hqind := (processNeighbors_levels_indep maxDepth d rest (visited ++ [n])
    ([] ++ [(n, d + 1)]) (lvlAdd maxDepth (fun _ => []) (d + 1) n) (fun _ => [])).2
  rcases processNeighbors_split maxDepth d rest (visited ++ [n]) ([] ++ [(n, d + 1)])
    (fun _ => []) with ⟨_, h2, _⟩
  rcases processNeighbors_char maxDepth d rest (visited ++ [n]) (fun _ => []) with ⟨_, g2, _⟩
  rw [hqind, h2, g2]
  rw [List.nil_append, List.map_append, List.map_map]
  rw [show (Prod.fst ∘ fun n : String => (n, d + 1)) = id from rfl, List.map_id]
  rfl

theorem pnDelta_mem (maxDepth d : Nat) :
    ∀ (nbrs visited : List String) (x : String),
    x ∈ pnDelta maxDepth d nbrs visited ↔ (x ∉ visited ∧ x ∈ nbrs) := by
  intro nbrs
  induction nbrs with
  | nil =>
    intro visited x
    simp [pnDelta, processNeighbors]
  | cons n rest ih =>
    intro visited x
    by_cases hc : visited.contains n = true
    · rw [pnDelta_cons_seen maxDepth d hc]
      rw [ih]
      have hn : n ∈ visited := by
        rw [contains_decide] at hc; simpa using hc
      constructor
      · rintro ⟨hx, hr⟩
        exact ⟨hx, List.mem_cons_of_mem _ hr⟩
      · rintro ⟨hx, hr⟩
        rcases List.mem_cons.mp hr with rfl | hr
        · exact absurd hn hx
        · exact ⟨hx, hr⟩
    · have hc2 : visited.contains n = false := by revert hc; cases visited.contains n <;> simp
      have hn : n ∉ visited := by
        rw [contains_decide] at hc2; simpa using hc2
      rw [pnDelta_cons_new maxDepth d hc2]
      constructor
      · intro hx
        rcases List.mem_cons.mp hx with rfl | hx
        · exact ⟨hn, List.mem_cons_self _ _⟩
        · rcases (ih (visited ++ [n]) x).mp hx with ⟨hv, hr⟩
          refine ⟨fun hvv => hv (List.mem_append_left _ hvv), List.mem_cons_of_mem _ hr⟩
      · rintro ⟨hv, hr⟩
        rcases List.mem_cons.mp hr with rfl | hr
        · exact List.mem_cons_self _ _
        · by_cases hxn : x = n
          · subst hxn; exact List.mem_cons_self _ _
          · refine List.mem_cons_of_mem _ ((ih (visited ++ [n]) x).mpr ⟨?_, hr⟩)
            intro hx
            rcases List.mem_append.mp hx with h | h
            · exact hv h
            · exact hxn (List.mem_singleton.mp h)

/-- The body of one whole BFS phase: process every frontier entry in turn,
threading visited set, out-queue and levels. -/
def phaseStep (adj : Adj) (maxDepth : Nat) :
    List (String × Nat) → List String → List (String × Nat) → Lvl →
    List String × List (String × Nat) × Lvl
  | [], visited, acc, levels => (visited, acc, levels)
  | (x, dx) :: rest, visited, acc, levels =>
    let t := processNeighbors maxDepth dx ((adjGet adj x).getD []) visited acc levels
    phaseStep adj maxDepth rest t.1 t.2.1 t.2.2

/-- The nodes a whole phase newly discovers, in discovery order. -/
def phaseDelta (adj : Adj) (maxDepth d : Nat) :
    List (String × Nat) → List String → List String
  | [], _ => []
  | (x, _) :: rest, visited =>
    let del := pnDelta maxDepth d ((adjGet adj x).getD []) visited
    del ++ phaseDelta adj maxDepth d rest (visited ++ del)

theorem phaseStep_char (adj : Adj) (maxDepth d : Nat) :
    ∀ (front : List (String × Nat)) (visited : List String)
      (acc : List (String × Nat)) (levels : Lvl),
    (∀ p ∈ front, p.2 = d) →
    (phaseStep adj maxDepth front visited acc levels).1 =
      visited ++ phaseDelta adj maxDepth d front visited ∧
    (phaseStep adj maxDepth front visited acc levels).2.1 =
      acc ++ (phaseDelta adj maxDepth d front visited).map (fun n => (n, d + 1)) ∧
    (phaseStep adj maxDepth front visited acc levels).2.2 =
      lvlAppend maxDepth levels (d + 1) (phaseDelta adj maxDepth d front visited) := by
  intro front
  induction front with
  | nil =>
    intro visited acc levels _
    simp [phaseStep, phaseDelta, lvlAppend_nil]
  | cons p rest ih =>
    rcases p with ⟨x, dx⟩
    intro visited acc levels hfront
    have hdx : dx = d := hfront (x, dx) (List.mem_cons_self _ _)
    subst hdx
    simp only [phaseStep, phaseDelta]
    rcases processNeighbors_split maxDepth dx ((adjGet adj x).getD []) visited acc levels
      with ⟨h1, h2, h3⟩
    rcases processNeighbors_char maxDepth dx ((adjGet adj x).getD []) visited levels
      with ⟨g1, g2, g3⟩
    set del := pnDelta maxDepth dx ((adjGet adj x).getD []) visited with hdel
    have ht1 : (processNeighbors maxDepth dx ((adjGet adj x).getD []) visited acc levels).1 =
        visited ++ del := by rw [h1, g1]
    have ht2 : (processNeighbors maxDepth dx ((adjGet adj x).getD []) visited acc levels).2.1 =
        acc ++ del.map (fun n => (n, dx + 1)) := by rw [h2, g2]
    have ht3 : (processNeighbors maxDepth dx ((adjGet adj x).getD []) visited acc levels).2.2 =
        lvlAppend maxDepth levels (dx + 1) del := by rw [h3, g3]
    rw [ht1, ht2, ht3]
    rcases ih (visited ++ del) (acc ++ del.map (fun n => (n, dx + 1)))
      (lvlAppend maxDepth levels (dx + 1) del)
      (fun q hq => hfront q (List.mem_cons_of_mem _ hq)) with ⟨k1, k2, k3⟩
    refine ⟨?_, ?_, ?_⟩
    · rw [k1, List.append_assoc]
    · rw [k2, List.map_append, List.append_assoc]
    · rw [k3, lvlAppend_comp]

theorem phaseDelta_mem (adj : Adj) (maxDepth d : Nat) :
    ∀ (front : List (String × Nat)) (visited : List String) (x : String),
    x ∈ phaseDelta adj maxDepth d front visited ↔
      (x ∉ visited ∧ ∃ u ∈ front.map Prod.fst, x ∈ (adjGet adj u).getD []) := by
  intro front
  induction front with
  | nil =>
    intro visited x
    simp [phaseDelta]
  | cons p rest ih =>
    rcases p with ⟨u0, du⟩
    intro visited x
    simp only [phaseDelta, List.mem_append, List.map_cons, List.mem_cons]
    rw [pnDelta_mem, ih]
    constructor
    · rintro (⟨hv, hr⟩ | ⟨hv, u, hu, hr⟩)
      · exact ⟨hv, u0, Or.inl rfl, hr⟩
      · refine ⟨fun hvv => hv (List.mem_append_left _ hvv), u, Or.inr hu, hr⟩
    · rintro ⟨hv, u, hu, hr⟩
      rcases hu with rfl | hu
      · exact Or.inl ⟨hv, hr⟩
      · by_cases hx : x ∈ pnDelta maxDepth d ((adjGet adj u0).getD []) visited
        · exact Or.inl ((pnDelta_mem maxDepth d _ visited x).mp hx)
        · refine Or.inr ⟨?_, u, hu, hr⟩
          intro hxx
          rcases List.mem_append.mp hxx with h | h
          · exact hv h
          · exact hx h

theorem bfsLoop_phase (adj : Adj) (maxDepth d : Nat) (hd : d < maxDepth) :
    ∀ (front : List (String × Nat)) (acc : List (String × Nat))
      (visited : List String) (levels : Lvl),
    (∀ p ∈ front, p.2 = d) →
    bfsLoop adj maxDepth (front ++ acc) visited levels =
      bfsLoop adj maxDepth (phaseStep adj maxDepth front visited acc levels).2.1
        (phaseStep adj maxDepth front visited acc levels).1
        (phaseStep adj maxDepth front visited acc levels).2.2 := by
  intro front
  induction front with
  | nil =>
    intro acc visited levels _
    simp [phaseStep]
  | cons p rest ih =>
    rcases p with ⟨x, dx⟩
    intro acc visited levels hfront
    have hdx : dx = d := hfront (x, dx) (List.mem_cons_self _ _)
    subst hdx
    rw [List.cons_append]
    rw [bfsLoop]
    rw [if_neg (by omega : ¬ maxDepth ≤ dx)]
    simp only [phaseStep]
    rcases processNeighbors_split maxDepth dx ((adjGet adj x).getD []) visited
      (rest ++ acc) levels with ⟨h1, h2, h3⟩
    rcases processNeighbors_split maxDepth dx ((adjGet adj x).getD []) visited
      acc levels with ⟨h1', h2', h3'⟩
    have e1 : (processNeighbors maxDepth dx ((adjGet adj x).getD []) visited (rest ++ acc) levels).1 =
        (processNeighbors maxDepth dx ((adjGet adj x).getD []) visited acc levels).1 := by
      rw [h1, h1']
    have e3 : (processNeighbors maxDepth dx ((adjGet adj x).getD []) visited (rest ++ acc) levels).2.2 =
        (processNeighbors maxDepth dx ((adjGet adj x).getD []) visited acc levels).2.2 := by
      rw [h3, h3']
    have e2 : (processNeighbors maxDepth dx ((adjGet adj x).getD []) visited (rest ++ acc) levels).2.1 =
        rest ++ (processNeighbors maxDepth dx ((adjGet adj x).getD []) visited acc levels).2.1 := by
      rw [h2, h2', List.append_assoc]
    rw [e1, e2, e3]
    exact ih _ _ _ (fun q hq => hfront q (List.mem_cons_of_mem _ hq))

theorem bfsLoop_drain (adj : Adj) (maxDepth : Nat) :
    ∀ (queue : List (String × Nat)) (visited : List String) (levels : Lvl),
    (∀ p ∈ queue, maxDepth ≤ p.2) →
    bfsLoop adj maxDepth queue visited levels = levels := by
  intro queue
  induction queue with
  | nil => intro visited levels _; rw [bfsLoop]
  | cons p rest ih =>
    rcases p with ⟨x, dx⟩
    intro visited levels hq
    rw [bfsLoop]
    rw [if_pos (hq (x, dx) (List.mem_cons_self _ _))]
    exact ih visited levels (fun q hqq => hq q (List.mem_cons_of_mem _ hqq))

/-- The BFS as a sequence of whole phases. -/
def phases (adj : Adj) (maxDepth : Nat) :
    Nat → List (String × Nat) → List String → Lvl → Lvl
  | 0, _, _, levels => levels
  | steps + 1, front, visited, levels =>
    phases adj maxDepth steps
      (phaseStep adj maxDepth front visited [] levels).2.1
      (phaseStep adj maxDepth front visited [] levels).1
      (phaseStep adj maxDepth front visited [] levels).2.2

theorem bfsLoop_eq_phases (adj : Adj) (maxDepth : Nat) :
    ∀ (steps d : Nat) (front : List (String × Nat)) (visited : List String) (levels : Lvl),
    (∀ p ∈ front, p.2 = d) → d + steps = maxDepth →
    bfsLoop adj maxDepth front visited levels = phases adj maxDepth steps front visited levels := by
  intro steps
  induction steps with
  | zero =>
    intro d front visited levels hfront hdm
    have hd : d = maxDepth := by omega
    subst hd
    rw [phases]
    exact bfsLoop_drain adj d front visited levels
      (fun p hp => Nat.le_of_eq (hfront p hp).symm)
  | succ steps ih =>
    intro d front visited levels hfront hdm
    have hd : d < maxDepth := by omega
    have hphase := bfsLoop_phase adj maxDepth d hd front [] visited levels hfront
    rw [List.append_nil] at hphase
    rw [hphase, phases]
    rcases phaseStep_char adj maxDepth d front visited [] levels hfront with ⟨_, h2, _⟩
    refine ih (d + 1) _ _ _ ?_ (by omega)
    rw [h2]
    intro p hp
    simp only [List.nil_append, List.mem_map] at hp
    rcases hp with ⟨n, _, rfl⟩
    rfl

theorem findNodesAtDepths_eq_phases (startNodeId : String) (maxDepth : Nat) (adjList : Adj) :
    findNodesAtDepths startNodeId maxDepth adjList =
      phases adjList maxDepth maxDepth [(startNodeId, 0)] [startNodeId]
        (lvlAdd maxDepth (fun _ => []) 0 startNodeId) := by
  unfold findNodesAtDepths
  exact bfsLoop_eq_phases adjList maxDepth maxDepth 0 [(startNodeId, 0)] [startNodeId] _
    (by intro p hp; rcases List.mem_singleton.mp hp with rfl; rfl) (by omega)

theorem phases_levels (adj : Adj) (s : String) (maxDepth : Nat) :
    ∀ (steps d : Nat) (front : List (String × Nat)) (visited : List String) (levels : Lvl),
    d + steps = maxDepth →
    (∀ p ∈ front, p.2 = d) →
    (∀ x, x ∈ front.map Prod.fst ↔ atDist adj s d x) →
    (∀ x, x ∈ visited ↔ reachInB adj s d x = true) →
    (∀ k, 1 ≤ k → k ≤ d → ∀ x, (x ∈ levels k ↔ atDist adj s k x)) →
    (∀ k, d < k → levels k = []) →
    ∀ k, 1 ≤ k → k ≤ maxDepth → ∀ x,
      (x ∈ phases adj maxDepth steps front visited levels k ↔ atDist adj s k x) := by
  intro steps
  induction steps with
  | zero =>
    intro d front visited levels hdm _ _ _ hlvl _ k hk1 hk2 x
    rw [phases]
    exact hlvl k hk1 (by omega) x
  | succ steps ih =>
    intro d front visited levels hdm hfront hfrontmem hvis hlvl hlvl2
    have hd1 : d + 1 ≤ maxDepth := by omega
    rcases phaseStep_char adj maxDepth d front visited [] levels hfront with ⟨h1, h2, h3⟩
    set Delta := phaseDelta adj maxDepth d front visited with hDelta
    have hDmem : ∀ x, x ∈ Delta ↔ atDist adj s (d + 1) x := by
      intro x
      rw [hDelta, phaseDelta_mem, atDist_succ_iff]
      constructor
      · rintro ⟨hnv, u, hu, hnb⟩
        refine ⟨?_, u, (hfrontmem u).mp hu, hnb⟩
        by_cases hr : reachInB adj s d x = true
        · exact absurd ((hvis x).mpr hr) hnv
        · revert hr; cases reachInB adj s d x <;> simp
      · rintro ⟨hnr, u, hu, hnb⟩
        refine ⟨?_, u, (hfrontmem u).mpr hu, hnb⟩
        intro hxv
        rw [(hvis x).mp hxv] at hnr
        cases hnr
    rw [phases]
    rw [h1, h2, h3]
    refine ih (d + 1) _ _ _ (by omega) ?_ ?_ ?_ ?_ ?_
    · intro p hp
      simp only [List.nil_append, List.mem_map] at hp
      rcases hp with ⟨n, _, rfl⟩
      rfl
    · intro x
      simp only [List.nil_append, List.map_map]
      rw [show (Prod.fst ∘ fun n : String => (n, d + 1)) = id from rfl, List.map_id]
      exact hDmem x
    · intro x
      rw [List.mem_append]
      constructor
      · rintro (hx | hx)
        · exact reachInB_mono_succ adj s d x ((hvis x).mp hx)
        · exact ((hDmem x).mp hx).1
      · intro hx
        by_cases hr : reachInB adj s d x = true
        · exact Or.inl ((hvis x).mpr hr)
        · have hr2 : reachInB adj s d x = false := by
            revert hr; cases reachInB adj s d x <;> simp
          exact Or.inr ((hDmem x).mpr ⟨hx, Or.inr (by simpa using hr2)⟩)
    · intro k hk1 hk2 x
      unfold lvlAppend
      rw [if_pos hd1]
      by_cases hkd : k = d + 1
      · subst hkd
        simp only [if_pos rfl]
        rw [hlvl2 (d + 1) (by omega), List.nil_append]
        exact hDmem x
      · rw [if_neg hkd]
        exact hlvl k hk1 (by omega) x
    · intro k hk
      unfold lvlAppend
      rw [if_pos hd1, if_neg (by omega : ¬ k = d + 1)]
      exact hlvl2 k (by omega)

/-- BFS correctness: for `1 ≤ k ≤ maxDepth`, level `k` of
`findNodesAtDepths` holds exactly the nodes at BFS distance `k` from the
start node. -/
theorem findNodesAtDepths_mem (startNodeId : String) (maxDepth : Nat) (adjList : Adj)
    (k : Nat) (hk1 : 1 ≤ k) (hk2 : k ≤ maxDepth) (x : String) :
    x ∈ findNodesAtDepths startNodeId maxDepth adjList k ↔
      (reachInB adjList startNodeId k x = true ∧
        reachInB adjList startNodeId (k - 1) x = false) := by
  rw [findNodesAtDepths_eq_phases]
  have h := phases_levels adjList startNodeId maxDepth maxDepth 0 [(startNodeId, 0)]
    [startNodeId] (lvlAdd maxDepth (fun _ => []) 0 startNodeId) (by omega)
    (by intro p hp; rcases List.mem_singleton.mp hp with rfl; rfl)
    (by
      intro x
      simp only [List.map_cons, List.map_nil, List.mem_singleton]
      rw [atDist_zero_iff])
    (by
      intro x
      simp only [List.mem_singleton]
      rw [reachInB_zero_iff])
    (by intro k hk1 hk2 x; omega)
    (by
      intro k hk
      unfold lvlAdd
      rw [if_pos (by omega : (0 : Nat) ≤ maxDepth)]
      rw [if_neg (by omega : ¬ k = 0)])
    k hk1 hk2 x
  rw [h]
  unfold atDist
  constructor
  · rintro ⟨h1, h2⟩
    refine ⟨h1, ?_⟩
    rcases h2 with h0 | h2
    · omega
    · exact h2
  · rintro ⟨h1, h2⟩
    exact ⟨h1, Or.inr h2⟩

/-! ## Pointwise characterization of the selection updates -/

theorem selectAndPin_id (n : GNode) : (selectAndPin n).id = n.id := by
  unfold selectAndPin
  rcases hfx : n.fx with _ | _ | a <;> rcases hfy : n.fy with _ | _ | b <;>
    rcases hx : n.x with _ | px <;> rcases hy : n.y with _ | py <;>
    simp [hfx, hfy, hx, hy]

theorem selectAndPin_idem (n : GNode) : selectAndPin (selectAndPin n) = selectAndPin n := by
  unfold selectAndPin
  rcases hfx : n.fx with _ | _ | a <;> rcases hfy : n.fy with _ | _ | b <;>
    rcases hx : n.x with _ | px <;> rcases hy : n.y with _ | py <;>
    simp [hfx, hfy, hx, hy]

theorem selectAndPin_isSelected (n : GNode) : (selectAndPin n).isSelected = true := by
  unfold selectAndPin
  rcases hfx : n.fx with _ | _ | a <;> rcases hfy : n.fy with _ | _ | b <;>
    rcases hx : n.x with _ | px <;> rcases hy : n.y with _ | py <;>
    simp [hfx, hfy, hx, hy]

theorem updateFirstNode_ids (nodeId : String) (f : GNode → GNode)
    (hf : ∀ n, (f n).id = n.id) :
    ∀ ns : List GNode, (updateFirstNode nodeId f ns).map (fun n => n.id) =
      ns.map (fun n => n.id) := by
  intro ns
  induction ns with
  | nil => rfl
  | cons a rest ih =>
    unfold updateFirstNode
    by_cases h : (a.id == nodeId) = true
    · rw [if_pos h]
      simp [hf]
    · rw [if_neg h]
      simp only [List.map_cons, ih]

theorem updateFirstNode_get? (nodeId : String) (f : GNode → GNode) :
    ∀ (ns : List GNode), (ns.map (fun n => n.id)).Nodup →
    ∀ (i : Nat) (n : GNode), ns.get? i = some n →
    (updateFirstNode nodeId f ns).get? i =
      some (if n.id = nodeId then f n else n) := by
  intro ns
  induction ns with
  | nil => intro _ i n h; cases h
  | cons a rest ih =>
    intro hnd i n h
    have hnd2 : (rest.map (fun n => n.id)).Nodup := by
      simp only [List.map_cons, List.nodup_cons] at hnd
      exact hnd.2
    have hane : a.id ∉ rest.map (fun n => n.id) := by
      simp only [List.map_cons, List.nodup_cons] at hnd
      exact hnd.1
    unfold updateFirstNode
    by_cases hmatch : (a.id == nodeId) = true
    · have haid : a.id = nodeId := by simpa using hmatch
      rw [if_pos hmatch]
      cases i with
      | zero =>
        cases h
        rw [if_pos haid]
        rfl
      | succ j =>
        simp only [List.get?] at h ⊢
        have hn : n.id ≠ nodeId := by
          intro hc
          apply hane
          rw [← haid] at hc
          rw [← hc]
          exact List.mem_map_of_mem (fun n => n.id) (List.get?_mem h)
        rw [if_neg hn]
        exact h
    · rw [if_neg hmatch]
      have haid : ¬ a.id = nodeId := by simpa using hmatch
      cases i with
      | zero =>
        cases h
        simp only [List.get?]
        rw [if_neg haid]
      | succ j =>
        simp only [List.get?] at h ⊢
        exact ih hnd2 j n h

theorem foldl_updateFirst (f : GNode → GNode)
    (hfid : ∀ n, (f n).id = n.id) (hfidem : ∀ n, f (f n) = f n) :
    ∀ (L : List String) (ns : List GNode), (ns.map (fun n => n.id)).Nodup →
    ∀ (i : Nat) (n : GNode), ns.get? i = some n →
    (L.foldl (fun acc nodeId => updateFirstNode nodeId f acc) ns).get? i =
      some (if n.id ∈ L then f n else n) := by
  intro L
  induction L with
  | nil =>
    intro ns _ i n h
    simp only [List.foldl_nil, List.not_mem_nil, if_false]
    exact h
  | cons a L2 ih =>
    intro ns hnd i n h
    simp only [List.foldl_cons]
    have hstep := updateFirstNode_get? a f ns hnd i n h
    have hnd2 : ((updateFirstNode a f ns).map (fun n => n.id)).Nodup := by
      rw [updateFirstNode_ids a f hfid]
      exact hnd
    have hres := ih (updateFirstNode a f ns) hnd2 i _ hstep
    by_cases hc : n.id = a
    · rw [if_pos hc] at hres
      rw [hres]
      have h1 : (f n).id ∈ L2 ∨ (f n).id ∉ L2 := em _
      have hmem : n.id ∈ a :: L2 := by rw [hc]; exact List.mem_cons_self _ _
      rw [if_pos hmem]
      rcases h1 with h1 | h1
      · rw [if_pos h1, hfidem]
      · rw [if_neg h1]
    · rw [if_neg hc] at hres
      rw [hres]
      have : (n.id ∈ a :: L2) ↔ (n.id ∈ L2) := by
        rw [List.mem_cons]
        constructor
        · rintro (h2 | h2)
          · exact absurd h2 hc
          · exact h2
        · exact Or.inr
      by_cases h2 : n.id ∈ L2
      · rw [if_pos h2, if_pos (this.mpr h2)]
      · rw [if_neg h2, if_neg (fun hh => h2 (this.mp hh))]

theorem buildAdjacencyList_ids (ns1 ns2 : List GNode) (links : List GLink)
    (h : ns1.map (fun n => n.id) = ns2.map (fun n => n.id)) :
    buildAdjacencyList ns1 links = buildAdjacencyList ns2 links := by
  unfold buildAdjacencyList
  have e : ∀ ns : List GNode, ns.foldl (fun m n => adjSet m n.id []) ([] : Adj) =
      (ns.map (fun n => n.id)).foldl (fun m i => adjSet m i []) ([] : Adj) := by
    intro ns
    rw [List.foldl_map]
  rw [e ns1, e ns2, h]

theorem adjSet_keys (m : Adj) (k : String) (v : List String) :
    ∀ p ∈ adjSet m k v, p.1 = k ∨ ∃ q ∈ m, p.1 = q.1 := by
  unfold adjSet
  by_cases h : List.any m (fun p => p.1 == k) = true
  · rw [if_pos h]
    intro p hp
    rcases List.mem_map.mp hp with ⟨q, hq, hpq⟩
    by_cases hqk : (q.1 == k) = true
    · rw [if_pos hqk] at hpq
      subst hpq
      exact Or.inl rfl
    · rw [if_neg hqk] at hpq
      subst hpq
      exact Or.inr ⟨q, hq, rfl⟩
  · rw [if_neg h]
    intro p hp
    rcases List.mem_append.mp hp with hp | hp
    · exact Or.inr ⟨p, hp, rfl⟩
    · rcases List.mem_singleton.mp hp with rfl
      exact Or.inl rfl

theorem adjAdd_keys (m : Adj) (k n : String) :
    ∀ p ∈ adjAdd m k n, ∃ q ∈ m, p.1 = q.1 := by
  unfold adjAdd
  intro p hp
  rcases List.mem_map.mp hp with ⟨q, hq, hpq⟩
  by_cases hqk : (q.1 == k) = true
  · rw [if_pos hqk] at hpq
    subst hpq
    exact ⟨q, hq, by simp at hqk; rw [hqk]⟩
  · rw [if_neg hqk] at hpq
    subst hpq
    exact ⟨q, hq, rfl⟩

theorem buildAdjacencyList_keys (nodes : List GNode) (links : List GLink) :
    ∀ p ∈ buildAdjacencyList nodes links, p.1 ∈ nodes.map (fun n => n.id) := by
  unfold buildAdjacencyList
  have hinit : ∀ p ∈ nodes.foldl (fun m n => adjSet m n.id []) ([] : Adj),
      p.1 ∈ nodes.map (fun n => n.id) := by
    have gen : ∀ (ns : List GNode) (m : Adj),
        (∀ p ∈ m, p.1 ∈ nodes.map (fun n => n.id)) →
        (∀ n ∈ ns, n.id ∈ nodes.map (fun n => n.id)) →
        ∀ p ∈ ns.foldl (fun m n => adjSet m n.id []) m, p.1 ∈ nodes.map (fun n => n.id) := by
      intro ns
      induction ns with
      | nil => intro m hm _ p hp; exact hm p hp
      | cons a rest ih =>
        intro m hm hns p hp
        simp only [List.foldl_cons] at hp
        refine ih (adjSet m a.id []) ?_ (fun n hn => hns n (List.mem_cons_of_mem _ hn)) p hp
        intro q hq
        rcases adjSet_keys m a.id [] q hq with h | ⟨r, hr, hqr⟩
        · rw [h]; exact hns a (List.mem_cons_self _ _)
        · rw [hqr]; exact hm r hr
    intro p hp
    exact gen nodes [] (by intro p hp; cases hp)
      (fun n hn => List.mem_map_of_mem _ hn) p hp
  have hlinks : ∀ (ls : List GLink) (m : Adj),
      (∀ p ∈ m, p.1 ∈ nodes.map (fun n => n.id)) →
      ∀ p ∈ ls.foldl (fun m l => adjAdd (adjAdd m l.sourceId l.targetId) l.targetId l.sourceId) m,
        p.1 ∈ nodes.map (fun n => n.id) := by
    intro ls
    induction ls with
    | nil => intro m hm p hp; exact hm p hp
    | cons l rest ih =>
      intro m hm p hp
      simp only [List.foldl_cons] at hp
      refine ih _ ?_ p hp
      intro q hq
      rcases adjAdd_keys _ _ _ q hq with ⟨r, hr, hqr⟩
      rcases adjAdd_keys _ _ _ r hr with ⟨t, ht, hrt⟩
      rw [hqr, hrt]
      exact hm t ht
  exact hlinks links _ hinit

theorem adjGet_none_of_not_key (m : Adj) (k : String)
    (h : ∀ p ∈ m, p.1 ≠ k) : adjGet m k = none := by
  unfold adjGet
  rw [List.find?_eq_none.mpr (by intro p hp; have := h p hp; simpa using this)]
  rfl

/-- If the start node has no neighbours at all (no key in the adjacency
map, or an empty set), nothing but the start node is ever reachable. -/
theorem reachInB_isolated (adj : Adj) (s : String)
    (h : (adjGet adj s).getD [] = []) :
    ∀ (n : Nat) (x : String), reachInB adj s n x = true ↔ x = s := by
  intro n
  induction n with
  | zero => intro x; exact reachInB_zero_iff adj s x
  | succ n ih =>
    intro x
    rw [reachInB_succ_iff]
    constructor
    · rintro (hr | ⟨u, _, hru, hc⟩)
      · exact (ih x).mp hr
      · have hus : u = s := (ih u).mp hru
        subst hus
        rw [h] at hc
        cases hc
    · intro hx
      exact Or.inl ((ih x).mpr hx)

/-- With an empty link list every neighbour set in the built adjacency map
is empty. -/
theorem buildAdjacencyList_nil_links (nodes : List GNode) :
    ∀ u, (adjGet (buildAdjacencyList nodes []) u).getD [] = [] := by
  unfold buildAdjacencyList
  simp only [List.foldl_nil]
  have gen : ∀ (ns : List GNode) (m : Adj), (∀ p ∈ m, p.2 = []) →
      ∀ p ∈ ns.foldl (fun m n => adjSet m n.id []) m, p.2 = [] := by
    intro ns
    induction ns with
    | nil => intro m hm p hp; exact hm p hp
    | cons a rest ih =>
      intro m hm p hp
      simp only [List.foldl_cons] at hp
      refine ih (adjSet m a.id []) ?_ p hp
      intro q hq
      unfold adjSet at hq
      by_cases h : List.any m (fun p => p.1 == a.id) = true
      · rw [if_pos h] at hq
        rcases List.mem_map.mp hq with ⟨r, hr, hqr⟩
        by_cases hra : (r.1 == a.id) = true
        · rw [if_pos hra] at hqr; subst hqr; rfl
        · rw [if_neg hra] at hqr; subst hqr; exact hm r hr
      · rw [if_neg h] at hq
        rcases List.mem_append.mp hq with hq | hq
        · exact hm q hq
        · rcases List.mem_singleton.mp hq with rfl
          rfl
  intro u
  rcases hg : adjGet (nodes.foldl (fun m n => adjSet m n.id []) ([] : Adj)) u with _ | ns
  · rw [hg]; rfl
  · unfold adjGet at hg
    rcases hf : List.find? (fun p => p.1 == u) (nodes.foldl (fun m n => adjSet m n.id []) ([] : Adj))
      with _ | p
    · rw [hf] at hg; cases hg
    · rw [hf] at hg
      have hp : p.2 = ns := by simpa using hg
      have hmem := List.mem_of_find?_eq_some hf
      have h2 := gen nodes [] (by intro p hp; cases hp) p hmem
      rw [hp] at h2
      have hag : adjGet (nodes.foldl (fun m n => adjSet m n.id []) ([] : Adj)) u = some ns := by
        unfold adjGet
        rw [hf]
        simpa using hg
      rw [hag, h2]
      rfl

theorem mem_levels_union_iff (adj : Adj) (s : String) (depth : Nat) (x : String) :
    (∃ i, 1 ≤ i ∧ i ≤ depth ∧ reachInB adj s i x = true ∧ reachInB adj s (i - 1) x = false) ↔
      (reachInB adj s depth x = true ∧ x ≠ s) := by
  constructor
  · rintro ⟨i, hi1, hi2, hr, hnr⟩
    refine ⟨reachInB_mono adj s hi2 x hr, ?_⟩
    rintro rfl
    rw [reachInB_self adj x (i - 1)] at hnr
    cases hnr
  · rintro ⟨hr, hxs⟩
    rcases exists_atDist adj s depth x hr with ⟨j, hj, hdj⟩
    rcases Nat.eq_zero_or_pos j with rfl | hj1
    · exact absurd ((atDist_zero_iff adj s x).mp hdj) hxs
    · rcases hdj with ⟨hja, hjb⟩
      refine ⟨j, hj1, hj, hja, ?_⟩
      rcases hjb with h0 | h
      · omega
      · exact h

theorem start_not_in_level (adj : Adj) (s : String) (maxDepth k : Nat)
    (hk1 : 1 ≤ k) (hk2 : k ≤ maxDepth) :
    s ∉ findNodesAtDepths s maxDepth adj k := by
  intro hmem
  have := (findNodesAtDepths_mem s maxDepth adj k hk1 hk2 s).mp hmem
  rw [reachInB_self adj s (k - 1)] at this
  cases this.2

theorem foldl_foldl_join (g : List GNode → String → List GNode) :
    ∀ (is : List Nat) (lvl : Nat → List String) (ns : List GNode),
    is.foldl (fun acc i => (lvl i).foldl g acc) ns = ((is.map lvl).flatten).foldl g ns := by
  intro is
  induction is with
  | nil => intro lvl ns; rfl
  | cons a rest ih =>
    intro lvl ns
    simp only [List.foldl_cons, List.map_cons, List.flatten_cons]
    rw [List.foldl_append]
    exact ih lvl ((lvl a).foldl g ns)

theorem foldl_updateFirst_ids (f : GNode → GNode) (hfid : ∀ n, (f n).id = n.id) :
    ∀ (L : List String) (ns : List GNode),
    (L.foldl (fun acc nodeId => updateFirstNode nodeId f acc) ns).map (fun n => n.id) =
      ns.map (fun n => n.id) := by
  intro L
  induction L with
  | nil => intro ns; rfl
  | cons a rest ih =>
    intro ns
    simp only [List.foldl_cons]
    rw [ih, updateFirstNode_ids a f hfid]

theorem mem_join_levels (adj : Adj) (s : String) (depth : Nat) (x : String) :
    x ∈ ((List.range' 1 depth).map (findNodesAtDepths s depth adj)).flatten ↔
      (reachInB adj s depth x = true ∧ x ≠ s) := by
  rw [← mem_levels_union_iff adj s depth x]
  rw [List.mem_flatten]
  constructor
  · rintro ⟨lset, hl, hx⟩
    rcases List.mem_map.mp hl with ⟨i, hi, rfl⟩
    have hir : 1 ≤ i ∧ i < 1 + depth := by
      have := List.mem_range'_1.mp hi
      omega
    refine ⟨i, hir.1, by omega, ?_⟩
    exact (findNodesAtDepths_mem s depth adj i hir.1 (by omega) x).mp hx
  · rintro ⟨i, hi1, hi2, hr⟩
    refine ⟨findNodesAtDepths s depth adj i, ?_, ?_⟩
    · exact List.mem_map_of_mem _ (List.mem_range'_1.mpr ⟨hi1, by omega⟩)
    · exact (findNodesAtDepths_mem s depth adj i hi1 hi2 x).mpr hr

theorem find_source_some {nodes : List GNode} {s : String}
    (hs : s ∈ nodes.map (fun n => n.id)) :
    ∃ m, List.find? (fun n => n.id == s) nodes = some m := by
  rcases List.mem_map.mp hs with ⟨m, hm, hms⟩
  have : (List.find? (fun n => n.id == s) nodes).isSome := by
    rw [List.find?_isSome]
    exact ⟨m, hm, by simp [hms]⟩
  rcases hf : List.find? (fun n => n.id == s) nodes with _ | m2
  · rw [hf] at this; cases this
  · exact ⟨m2, hf⟩

/-- Pointwise effect of `selectNodeNeighborhood` (the guard-passing case):
a node is hit by `selectAndPin` exactly when it is the source or within
BFS distance `depth` of it. -/
theorem selectNodeNeighborhood_get? (s : String) (depth : Nat)
    (nodes : List GNode) (links : List GLink)
    (hnd : (nodes.map (fun n => n.id)).Nodup)
    (hnn : nodes ≠ []) (hnl : links ≠ [])
    (hs : s ∈ nodes.map (fun n => n.id)) :
    ∀ (i : Nat) (n : GNode), nodes.get? i = some n →
    (selectNodeNeighborhood s depth nodes links).get? i =
      some (if reachInB (buildAdjacencyList nodes links) s depth n.id = true ∨ n.id = s
            then selectAndPin n else n) := by
  intro i n h
  have h1 : nodes.isEmpty = false := by cases nodes with
    | nil => exact absurd rfl hnn
    | cons a l => rfl
  have h2 : links.isEmpty = false := by cases links with
    | nil => exact absurd rfl hnl
    | cons a l => rfl
  rcases find_source_some hs with ⟨m, hfind⟩
  unfold selectNodeNeighborhood
  rw [h1, h2, hfind]
  simp only [Bool.false_eq_true, false_or, if_false]
  have hids1 : (updateFirstNode s selectAndPin nodes).map (fun n => n.id) =
      nodes.map (fun n => n.id) := updateFirstNode_ids s selectAndPin selectAndPin_id nodes
  have hn1 := updateFirstNode_get? s selectAndPin nodes hnd i n h
  have hadj : buildAdjacencyList (updateFirstNode s selectAndPin nodes) links =
      buildAdjacencyList nodes links := buildAdjacencyList_ids _ _ links hids1
  by_cases hdep : depth = 0
  · subst hdep
    rw [if_pos rfl]
    rw [hn1]
    have : (reachInB (buildAdjacencyList nodes links) s 0 n.id = true ∨ n.id = s) ↔
        (n.id = s) := by
      rw [reachInB_zero_iff]
      tauto
    by_cases hc : n.id = s
    · rw [if_pos hc, if_pos (this.mpr hc)]
    · rw [if_neg hc, if_neg (fun hh => hc (this.mp hh))]
  · rw [if_neg hdep]
    rw [hadj]
    rw [foldl_foldl_join]
    have hnd1 : ((updateFirstNode s selectAndPin nodes).map (fun n => n.id)).Nodup := by
      rw [hids1]; exact hnd
    have hres := foldl_updateFirst selectAndPin selectAndPin_id selectAndPin_idem
      (((List.range' 1 depth).map
        (findNodesAtDepths s depth (buildAdjacencyList nodes links))).flatten)
      (updateFirstNode s selectAndPin nodes) hnd1 i _ hn1
    rw [hres]
    have hmem : ∀ y : String,
        y ∈ ((List.range' 1 depth).map
          (findNodesAtDepths s depth (buildAdjacencyList nodes links))).flatten ↔
        (reachInB (buildAdjacencyList nodes links) s depth y = true ∧ y ≠ s) :=
      mem_join_levels (buildAdjacencyList nodes links) s depth
    by_cases hc : n.id = s
    · rw [if_pos hc]
      have hsel : (selectAndPin n).id ∉ ((List.range' 1 depth).map
          (findNodesAtDepths s depth (buildAdjacencyList nodes links))).flatten := by
        rw [selectAndPin_id, hc]
        intro hx
        exact ((hmem s).mp hx).2 rfl
      rw [if_neg hsel]
      rw [if_pos (Or.inr hc)]
    · rw [if_neg hc]
      by_cases hr : reachInB (buildAdjacencyList nodes links) s depth n.id = true
      · rw [if_pos ((hmem n.id).mpr ⟨hr, hc⟩), if_pos (Or.inl hr)]
      · rw [if_neg (fun hh => hr ((hmem n.id).mp hh).1)]
        rw [if_neg (by tauto)]

/-- `selectNodeNeighborhood` never changes the id sequence. -/
theorem selectNodeNeighborhood_ids (s : String) (depth : Nat)
    (nodes : List GNode) (links : List GLink) :
    (selectNodeNeighborhood s depth nodes links).map (fun n => n.id) =
      nodes.map (fun n => n.id) := by
  unfold selectNodeNeighborhood
  by_cases h1 : (nodes.isEmpty ∨ links.isEmpty : Prop)
  · rw [if_pos h1]
  · rw [if_neg h1]
    rcases hf : List.find? (fun n => n.id == s) nodes with _ | m
    · simp only [hf]
    · simp only [hf]
      have hids1 := updateFirstNode_ids s selectAndPin selectAndPin_id nodes
      by_cases hdep : depth = 0
      · subst hdep
        rw [if_pos rfl]
        exact hids1
      · rw [if_neg hdep]
        rw [foldl_foldl_join]
        rw [foldl_updateFirst_ids selectAndPin selectAndPin_id]
        exact hids1

/-- Pointwise effect of `selectExactLayer` (guard-passing case): the source
is re-selected and keeps its pin; every other node is deselected and
cleared to `fx = fy = null`, and the nodes at exact BFS distance `k` are
then re-selected (their cleared `null` pin survives `selectAndPin`, which
only pins on `undefined`). -/
theorem selectExactLayer_get? (s : String) (k : Nat)
    (nodes : List GNode) (links : List GLink)
    (hnd : (nodes.map (fun n => n.id)).Nodup)
    (hnn : nodes ≠ []) (hnl : links ≠ []) (hk : 1 ≤ k)
    (hs : s ∈ nodes.map (fun n => n.id)) :
    ∀ (i : Nat) (n : GNode), nodes.get? i = some n →
    (selectExactLayer s k nodes links).get? i =
      some (if n.id = s then selectAndPin n
            else if reachInB (buildAdjacencyList nodes links) s k n.id = true ∧
                    reachInB (buildAdjacencyList nodes links) s (k - 1) n.id = false
                 then selectAndPin
                   { n with isSelected := false, fx := NVal.null, fy := NVal.null }
                 else { n with isSelected := false, fx := NVal.null, fy := NVal.null }) := by
  intro i n h
  have h1 : nodes.isEmpty = false := by cases nodes with
    | nil => exact absurd rfl hnn
    | cons a l => rfl
  have h2 : links.isEmpty = false := by cases links with
    | nil => exact absurd rfl hnl
    | cons a l => rfl
  rcases find_source_some hs with ⟨m, hfind⟩
  unfold selectExactLayer
  rw [if_neg (by
    rintro (hc | hc | hc)
    · rw [h1] at hc; cases hc
    · rw [h2] at hc; cases hc
    · omega)]
  rw [hfind]
  set des : GNode → GNode := fun node =>
    if node.id == s then node
    else { node with isSelected := false, fx := NVal.null, fy := NVal.null } with hdes
  have hn1 : (nodes.map des).get? i = some (des n) := by
    rw [List.get?_map, h]
    rfl
  have hids1 : (nodes.map des).map (fun n => n.id) = nodes.map (fun n => n.id) := by
    rw [List.map_map]
    refine List.map_congr_left ?_
    intro a _
    simp only [Function.comp, hdes]
    by_cases hc : (a.id == s) = true
    · rw [if_pos hc]
    · rw [if_neg hc]
  have hnd1 : ((nodes.map des).map (fun n => n.id)).Nodup := by rw [hids1]; exact hnd
  have hn2 := updateFirstNode_get? s selectAndPin (nodes.map des) hnd1 i (des n) hn1
  have hids2 : (updateFirstNode s selectAndPin (nodes.map des)).map (fun n => n.id) =
      nodes.map (fun n => n.id) := by
    rw [updateFirstNode_ids s selectAndPin selectAndPin_id, hids1]
  have hnd2 : ((updateFirstNode s selectAndPin (nodes.map des)).map (fun n => n.id)).Nodup := by
    rw [hids2]; exact hnd
  have hadj : buildAdjacencyList (updateFirstNode s selectAndPin (nodes.map des)) links =
      buildAdjacencyList nodes links := buildAdjacencyList_ids _ _ links hids2
  rw [if_neg (by omega : ¬ k = 0)]
  rw [hadj]
  have hdesid : (des n).id = n.id := by
    simp only [hdes]
    by_cases hc : (n.id == s) = true
    · rw [if_pos hc]
    · rw [if_neg hc]
  have hres := foldl_updateFirst selectAndPin selectAndPin_id selectAndPin_idem
    (findNodesAtDepths s k (buildAdjacencyList nodes links) k)
    (updateFirstNode s selectAndPin (nodes.map des)) hnd2 i _ hn2
  rw [hres]
  by_cases hc : n.id = s
  · have hceq : (n.id == s) = true := by simpa using hc
    have hdn : des n = n := by simp only [hdes]; rw [if_pos hceq]
    rw [hdn]
    rw [if_pos (by rw [hc] : n.id = s)] at *
    rw [if_pos hc]
    have hnotin : (selectAndPin n).id ∉
        findNodesAtDepths s k (buildAdjacencyList nodes links) k := by
      rw [selectAndPin_id, hc]
      exact start_not_in_level (buildAdjacencyList nodes links) s k k hk (Nat.le_refl k)
    rw [if_neg hnotin]
  · have hceq : (n.id == s) = false := by simpa using hc
    have hdn : des n = { n with isSelected := false, fx := NVal.null, fy := NVal.null } := by
      simp only [hdes]; rw [if_neg (by simp [hceq])]
    have hne : ¬ (des n).id = s := by rw [hdesid]; exact hc
    rw [if_neg hne]
    rw [if_neg hc]
    have hmemiff := findNodesAtDepths_mem s k (buildAdjacencyList nodes links) k hk
      (Nat.le_refl k) ((des n).id)
    rw [hdesid] at hmemiff
    by_cases hfr : reachInB (buildAdjacencyList nodes links) s k n.id = true ∧
        reachInB (buildAdjacencyList nodes links) s (k - 1) n.id = false
    · have hmem : (des n).id ∈ findNodesAtDepths s k (buildAdjacencyList nodes links) k := by
        rw [hdesid]; exact hmemiff.mpr hfr
      rw [if_pos hmem, if_pos hfr, hdn]
    · have hmem : ¬ (des n).id ∈ findNodesAtDepths s k (buildAdjacencyList nodes links) k := by
        rw [hdesid]; exact fun hh => hfr (hmemiff.mp hh)
      rw [if_neg hmem, if_neg hfr, hdn]

theorem selectAndPin_pinned (n : GNode) (a b : ℚ)
    (hfx : n.fx = NVal.val a) (hfy : n.fy = NVal.val b) :
    (selectAndPin n).fx = NVal.val a ∧ (selectAndPin n).fy = NVal.val b := by
  unfold selectAndPin
  rw [if_neg]
  · exact ⟨hfx, hfy⟩
  · rintro (h | h)
    · rw [show ({ n with isSelected := true } : GNode).fx = n.fx from rfl, hfx] at h
      cases h
    · rw [show ({ n with isSelected := true } : GNode).fy = n.fy from rfl, hfy] at h
      cases h

/-- With duplicate-free ids, a node of the list is determined by its id. -/
theorem node_id_unique (nodes : List GNode)
    (hnd : (nodes.map (fun n => n.id)).Nodup)
    (n N : GNode) (hn : n ∈ nodes) (hN : N ∈ nodes) (hid : n.id = N.id) :
    n = N :=
  List.inj_on_of_nodup_map hnd hn hN hid

/-- C3: after `selectExactLayer` at layer `k ≥ 1` from a pinned anchor `N`
of the graph, a node other than the anchor is selected exactly when its
BFS distance from `N` over the undirected adjacency is `k` (`distIs`),
every deselected node is also unpinned (`fx = fy = null`), and the anchor
itself remains selected with its pin unchanged. -/
theorem c3_exact_layer (nodes : List GNode) (links : List GLink)
    (N : GNode) (k : Nat) (a b : ℚ)
    (hnd : (nodes.map (fun n => n.id)).Nodup)
    (hmem : N ∈ nodes) (hnl : links ≠ []) (hk : 1 ≤ k)
    (hfx : N.fx = NVal.val a) (hfy : N.fy = NVal.val b) :
    ∀ (i : Nat) (n m : GNode), nodes.get? i = some n →
      (selectExactLayer N.id k nodes links).get? i = some m →
      (n.id ≠ N.id →
        (m.isSelected = true ↔
          distIs (buildAdjacencyList nodes links) N.id k n.id = true) ∧
        (m.isSelected = false → m.fx = NVal.null ∧ m.fy = NVal.null)) ∧
      (n.id = N.id →
        m.isSelected = true ∧ m.fx = NVal.val a ∧ m.fy = NVal.val b) := by
  intro i n m hget hres
  have hnn : nodes ≠ [] := List.ne_nil_of_mem hmem
  have hs : N.id ∈ nodes.map (fun n => n.id) := List.mem_map_of_mem _ hmem
  have hchar := selectExactLayer_get? N.id k nodes links hnd hnn hnl hk hs i n hget
  rw [hres] at hchar
  have hm := Option.some.inj hchar
  constructor
  · intro hne
    rw [if_neg hne] at hm
    by_cases hfr : reachInB (buildAdjacencyList nodes links) N.id k n.id = true ∧
        reachInB (buildAdjacencyList nodes links) N.id (k - 1) n.id = false
    · rw [if_pos hfr] at hm
      subst hm
      refine ⟨⟨fun _ => by simp [distIs, hfr.1, hfr.2], fun _ => selectAndPin_isSelected _⟩, ?_⟩
      intro hsel
      rw [selectAndPin_isSelected] at hsel
      cases hsel
    · rw [if_neg hfr] at hm
      subst hm
      refine ⟨⟨fun hh => ?_, fun hh => ?_⟩, fun _ => ⟨rfl, rfl⟩⟩
      · cases hh
      · exact absurd (by simpa [distIs] using hh) hfr
  · intro heq
    rw [if_pos heq] at hm
    have hnN : n = N :=
      node_id_unique nodes hnd n N (List.get?_mem hget) hmem heq
    subst hnN
    subst hm
    exact ⟨selectAndPin_isSelected _, selectAndPin_pinned n a b hfx hfy⟩

/-- A three-node chain `a – b – c` whose `a` is selected and pinned. -/
def chainNodes : List GNode := [anchorNodeA, demoNode "b" 3 4, demoNode "c" 5 6]

/-- The two links of the chain `a – b – c`. -/
def chainLinks : List GLink := [demoLink "a" "b" 0, demoLink "b" "c" 1]

/-- Expected result for `b` (distance 1): deselected and cleared. -/
def chainResB : GNode :=
  { demoNode "b" 3 4 with isSelected := false, fx := NVal.null, fy := NVal.null }

/-- Expected result for `c` (distance 2): re-selected after clearing. -/
def chainResC : GNode :=
  { demoNode "c" 5 6 with isSelected := true, fx := NVal.null, fy := NVal.null }

theorem c3_exact_layer_witness :
    ((selectExactLayer "a" 2 chainNodes chainLinks).get? 0).map
        (fun n => (n.isSelected, n.fx, n.fy)) = some (true, NVal.val 1, NVal.val 2) ∧
    ((selectExactLayer "a" 2 chainNodes chainLinks).get? 1).map
        (fun n => (n.isSelected, n.fx, n.fy)) = some (false, NVal.null, NVal.null) ∧
    ((selectExactLayer "a" 2 chainNodes chainLinks).get? 2).map
        (fun n => n.isSelected) = some true := by
  have hall : selectExactLayer "a" 2 chainNodes chainLinks =
      [anchorNodeA, chainResB, chainResC] := by
    simp [selectExactLayer, findNodesAtDepths, bfsLoop, processNeighbors,
      lvlAdd, adjGet, buildAdjacencyList, adjSet, adjAdd, updateFirstNode, selectAndPin,
      chainNodes, chainLinks, anchorNodeA, demoNode, demoLink, List.find?,
      chainResB, chainResC]
  have h := c3_exact_layer chainNodes chainLinks anchorNodeA 2 1 2
    (by decide)
    (by unfold chainNodes; exact List.mem_cons_self _ _)
    (by unfold chainLinks; exact List.cons_ne_nil _ _)
    (by decide) rfl rfl
  have hA := (h 0 anchorNodeA anchorNodeA rfl
    (by show (selectExactLayer "a" 2 chainNodes chainLinks).get? 0 = some anchorNodeA
        rw [hall]
        rfl)).2 rfl
  have hB := (h 1 (demoNode "b" 3 4) chainResB rfl
    (by show (selectExactLayer "a" 2 chainNodes chainLinks).get? 1 = some chainResB
        rw [hall]
        rfl)).1 (by decide)
  have hBnull := hB.2 rfl
  have hC := ((h 2 (demoNode "c" 5 6) chainResC rfl
    (by show (selectExactLayer "a" 2 chainNodes chainLinks).get? 2 = some chainResC
        rw [hall]
        rfl)).1 (by decide)).1.mpr (by rfl)
  refine ⟨?_, ?_, ?_⟩
  · rw [hall]
    show some (anchorNodeA.isSelected, anchorNodeA.fx, anchorNodeA.fy) =
      some (true, NVal.val 1, NVal.val 2)
    rw [hA.1, hA.2.1, hA.2.2]
  · rw [hall]
    show some (chainResB.isSelected, chainResB.fx, chainResB.fy) =
      some (false, NVal.null, NVal.null)
    rw [hBnull.1, hBnull.2]
    rfl
  · rw [hall]
    show some chainResC.isSelected = some true
    rw [hC]

/-- C4: on a graph whose nodes start out unselected, running the
neighborhood selection at depth `d` and then (as the next
neighborhood-mode click does) at depth `d + 1` on the resulting node
list only ever grows the selected set, and the nodes selected by the
second run but not the first are exactly those at BFS distance `d + 1`
from the anchor. -/
theorem c4_neighborhood_monotone (nodes : List GNode) (links : List GLink)
    (s : String) (d : Nat)
    (hnd : (nodes.map (fun n => n.id)).Nodup)
    (hnl : links ≠ []) (hs : s ∈ nodes.map (fun n => n.id))
    (hclean : ∀ n ∈ nodes, n.isSelected = false) :
    ∀ (i : Nat) (n n1 n2 : GNode), nodes.get? i = some n →
      (selectNodeNeighborhood s d nodes links).get? i = some n1 →
      (selectNodeNeighborhood s (d + 1)
        (selectNodeNeighborhood s d nodes links) links).get? i = some n2 →
      (n1.isSelected = true → n2.isSelected = true) ∧
      (n2.isSelected = true ∧ n1.isSelected = false ↔
        distIs (buildAdjacencyList nodes links) s (d + 1) n.id = true) := by
  intro i n n1 n2 hget h1 h2
  have hnn : nodes ≠ [] := by
    intro he; subst he; simp at hs
  have hc1 := selectNodeNeighborhood_get? s d nodes links hnd hnn hnl hs i n hget
  rw [h1] at hc1
  have hn1 := Option.some.inj hc1
  have hids1 : (selectNodeNeighborhood s d nodes links).map (fun n => n.id) =
      nodes.map (fun n => n.id) := selectNodeNeighborhood_ids s d nodes links
  have hnd1 : ((selectNodeNeighborhood s d nodes links).map (fun n => n.id)).Nodup := by
    rw [hids1]; exact hnd
  have hnn1 : selectNodeNeighborhood s d nodes links ≠ [] := by
    intro he
    rw [he] at hids1
    cases nodes with
    | nil => exact hnn rfl
    | cons a l => simp at hids1
  have hs1 : s ∈ (selectNodeNeighborhood s d nodes links).map (fun n => n.id) := by
    rw [hids1]; exact hs
  have hadj1 : buildAdjacencyList (selectNodeNeighborhood s d nodes links) links =
      buildAdjacencyList nodes links := buildAdjacencyList_ids _ _ links hids1
  have hc2 := selectNodeNeighborhood_get? s (d + 1)
    (selectNodeNeighborhood s d nodes links) links hnd1 hnn1 hnl hs1 i n1 h1
  rw [h2, hadj1] at hc2
  have hn2 := Option.some.inj hc2
  have hid1 : n1.id = n.id := by
    rw [hn1]; split_ifs with hcc
    · exact selectAndPin_id n
    · rfl
  rw [hid1] at hn2
  have hmem : n ∈ nodes := List.get?_mem hget
  have hcl : n.isSelected = false := hclean n hmem
  have hsel1 : n1.isSelected = true ↔
      (reachInB (buildAdjacencyList nodes links) s d n.id = true ∨ n.id = s) := by
    rw [hn1]; split_ifs with hcc
    · simp [selectAndPin_isSelected, hcc]
    · simp [hcl, hcc]
  have hsel2 : n2.isSelected = true ↔
      (reachInB (buildAdjacencyList nodes links) s (d + 1) n.id = true ∨ n.id = s) := by
    rw [hn2]; split_ifs with hcc
    · simp [selectAndPin_isSelected, hcc]
    · have hnc1 : ¬(reachInB (buildAdjacencyList nodes links) s d n.id = true ∨ n.id = s) := by
        rintro (hh | hh)
        · exact hcc (Or.inl (reachInB_mono_succ _ s d n.id hh))
        · exact hcc (Or.inr hh)
      have hf1 : n1.isSelected = false := by
        cases hb : n1.isSelected with
        | false => rfl
        | true => exact absurd (hsel1.mp hb) hnc1
      simp [hf1, hcc]
  constructor
  · intro hh
    refine hsel2.mpr ?_
    rcases hsel1.mp hh with hh2 | hh2
    · exact Or.inl (reachInB_mono_succ _ s d n.id hh2)
    · exact Or.inr hh2
  · constructor
    · rintro ⟨ha, hb⟩
      have hnc1 : ¬(reachInB (buildAdjacencyList nodes links) s d n.id = true ∨ n.id = s) := by
        intro hh
        rw [hsel1.mpr hh] at hb
        cases hb
      rcases hsel2.mp ha with hh | hh
      · have hnr : reachInB (buildAdjacencyList nodes links) s d n.id = false := by
          cases hrr : reachInB (buildAdjacencyList nodes links) s d n.id with
          | false => rfl
          | true => exact absurd (Or.inl hrr) hnc1
        simp [distIs, hh, hnr]
      · exact absurd (Or.inr hh) hnc1
    · intro hd2
      have hd3 : reachInB (buildAdjacencyList nodes links) s (d + 1) n.id = true ∧
          reachInB (buildAdjacencyList nodes links) s d n.id = false := by
        simpa [distIs] using hd2
      have hne : n.id ≠ s := by
        intro he
        rw [he] at hd3
        rw [reachInB_self (buildAdjacencyList nodes links) s d] at hd3
        exact absurd hd3.2 (by simp)
      refine ⟨hsel2.mpr (Or.inl hd3.1), ?_⟩
      cases hb : n1.isSelected with
      | false => rfl
      | true =>
        rcases hsel1.mp hb with hh2 | hh2
        · rw [hh2] at hd3; cases hd3.2
        · exact absurd hh2 hne

/-- The chain `a – b – c` with every node unselected and unpinned. -/
def cleanChain : List GNode := [demoNode "a" 1 2, demoNode "b" 3 4, demoNode "c" 5 6]

/-- A node as left by `selectAndPin`: selected, pinned at its position. -/
def pinNode (id : String) (px py : ℚ) : GNode :=
  { demoNode id px py with isSelected := true, fx := NVal.val px, fy := NVal.val py }

theorem c4_neighborhood_monotone_witness :
    ((selectNodeNeighborhood "a" 1 cleanChain chainLinks).get? 2).map
      (fun n => n.isSelected) = some false ∧
    ((selectNodeNeighborhood "a" 2 (selectNodeNeighborhood "a" 1 cleanChain chainLinks)
        chainLinks).get? 2).map (fun n => n.isSelected) = some true ∧
    distIs (buildAdjacencyList cleanChain chainLinks) "a" 2 "c" = true := by
  have hall1 : selectNodeNeighborhood "a" 1 cleanChain chainLinks =
      [pinNode "a" 1 2, pinNode "b" 3 4, demoNode "c" 5 6] := by
    simp [selectNodeNeighborhood, findNodesAtDepths, bfsLoop, processNeighbors,
      lvlAdd, adjGet, buildAdjacencyList, adjSet, adjAdd, updateFirstNode, selectAndPin,
      cleanChain, chainLinks, demoNode, demoLink, List.find?, pinNode, List.range']
  have hall2 : selectNodeNeighborhood "a" 2
      (selectNodeNeighborhood "a" 1 cleanChain chainLinks) chainLinks =
      [pinNode "a" 1 2, pinNode "b" 3 4, pinNode "c" 5 6] := by
    rw [hall1]
    simp [selectNodeNeighborhood, findNodesAtDepths, bfsLoop, processNeighbors,
      lvlAdd, adjGet, buildAdjacencyList, adjSet, adjAdd, updateFirstNode, selectAndPin,
      cleanChain, chainLinks, demoNode, demoLink, List.find?, pinNode, List.range']
  have h := c4_neighborhood_monotone cleanChain chainLinks "a" 1
    (by decide)
    (by unfold chainLinks; exact List.cons_ne_nil _ _)
    (by decide)
    (by decide)
  have hc := h 2 (demoNode "c" 5 6) (demoNode "c" 5 6) (pinNode "c" 5 6) rfl
    (by rw [hall1]; rfl)
    (by show (selectNodeNeighborhood "a" 2
          (selectNodeNeighborhood "a" 1 cleanChain chainLinks) chainLinks).get? 2 =
        some (pinNode "c" 5 6)
        rw [hall2]
        rfl)
  refine ⟨?_, ?_, ?_⟩
  · rw [hall1]; rfl
  · rw [hall2]; rfl
  · exact hc.2.mp ⟨rfl, rfl⟩

/-! ## C5 -/

theorem enum_map_id_proj {α : Type} (l : List α) (f : Nat × α → GNode) (g : α → String)
    (hf : ∀ p, (f p).id = g p.2) :
    (l.enum.map f).map (fun n => n.id) = l.map g := by
  rw [List.map_map]
  have h2 : ((fun n : GNode => n.id) ∘ f) = (fun p : Nat × α => g p.2) :=
    funext (fun p => hf p)
  rw [h2]
  rw [show (fun p : Nat × α => g p.2) = g ∘ Prod.snd from rfl, ← List.map_map,
    List.enum_map_snd]

/-- The ids of the rebuilt node list are those of the payload, whatever the
previous nodes and radius were. -/
theorem transform_ids (g : Graph) (o : List GNode) (r : ℚ) :
    (transformGraphData g o r).1.map (fun n => n.id) = g.nodes.map (fun n => n.id) :=
  enum_map_id_proj g.nodes _ _ (fun _ => rfl)

theorem mapGetNode_isSome (l : List GNode) (k : String) :
    (mapGetNode l k).isSome = true ↔ k ∈ l.map (fun n => n.id) := by
  simp [mapGetNode, List.find?_isSome, List.mem_reverse, List.mem_map]

theorem mapGetNode_none_iff (l1 l2 : List GNode)
    (h : l1.map (fun n => n.id) = l2.map (fun n => n.id)) (k : String) :
    mapGetNode l1 k = none ↔ mapGetNode l2 k = none := by
  have e1 := mapGetNode_isSome l1 k
  have e2 := mapGetNode_isSome l2 k
  rw [h] at e1
  constructor
  · intro hh
    rcases ho : mapGetNode l2 k with _ | v
    · rfl
    · have hso : (mapGetNode l2 k).isSome = true := by rw [ho]; rfl
      have := e1.mpr (e2.mp hso)
      rw [hh] at this
      cases this
  · intro hh
    rcases ho : mapGetNode l1 k with _ | v
    · rfl
    · have hso : (mapGetNode l1 k).isSome = true := by rw [ho]; rfl
      have := e2.mpr (e1.mp hso)
      rw [hh] at this
      cases this

/-- `transformLink` only inspects node ids, so node lists with the same
ids drop the same edges and build the same link records. -/
theorem transformLink_ids (n1 n2 : List GNode)
    (h : n1.map (fun n => n.id) = n2.map (fun n => n.id)) (p : Nat × RawEdge) :
    transformLink n1 p = transformLink n2 p := by
  have hsrc := mapGetNode_none_iff n1 n2 h p.2.source
  have htgt := mapGetNode_none_iff n1 n2 h p.2.target
  unfold transformLink
  rcases h1 : mapGetNode n1 p.2.source with _ | u1 <;>
    rcases h2 : mapGetNode n1 p.2.target with _ | u2 <;>
    rcases h3 : mapGetNode n2 p.2.source with _ | u3 <;>
    rcases h4 : mapGetNode n2 p.2.target with _ | u4 <;>
    simp [h1, h2, h3, h4] <;>
    first
      | rfl
      | exact absurd (hsrc.mp h1) (by rw [h3]; simp)
      | exact absurd (hsrc.mpr h3) (by rw [h1]; simp)
      | exact absurd (htgt.mp h2) (by rw [h4]; simp)
      | exact absurd (htgt.mpr h4) (by rw [h2]; simp)

theorem transform_links_eq (g : Graph) (o1 o2 : List GNode) (r1 r2 : ℚ) :
    (transformGraphData g o1 r1).2 = (transformGraphData g o2 r2).2 := by
  have hids : ((transformGraphData g o1 r1).1).map (fun n => n.id) =
      ((transformGraphData g o2 r2).1).map (fun n => n.id) := by
    rw [transform_ids, transform_ids]
  have hfun : transformLink (transformGraphData g o1 r1).1 =
      transformLink (transformGraphData g o2 r2).1 :=
    funext (transformLink_ids _ _ hids)
  show g.edges.enum.filterMap (transformLink (transformGraphData g o1 r1).1) =
    g.edges.enum.filterMap (transformLink (transformGraphData g o2 r2).1)
  rw [hfun]

/-- C5: the graph-model build is deterministic in its relevance scores:
the produced link list does not depend on the previous nodes or the node
radius at all, and every link's `relevanceScore` is the closed-form
function `((edgeIndex + sourceId.length + targetId.length) % 100) / 100`
of its index and endpoint identifiers — no random source is involved. -/
theorem c5_relevance_deterministic (g : Graph) (o1 o2 : List GNode) (r1 r2 : ℚ) :
    (transformGraphData g o1 r1).2 = (transformGraphData g o2 r2).2 ∧
    ∀ l ∈ (transformGraphData g o1 r1).2,
      l.relevanceScore =
        (((l.edgeIndex + (l.sourceId.length + l.targetId.length)) % 100 : Nat) : ℚ) / 100 := by
  refine ⟨transform_links_eq g o1 o2 r1 r2, ?_⟩
  intro l hl
  have hl2 : l ∈ g.edges.enum.filterMap (transformLink (transformGraphData g o1 r1).1) := hl
  rcases List.mem_filterMap.mp hl2 with ⟨p, hp, hfp⟩
  simp only [transformLink] at hfp
  rcases h1 : mapGetNode (transformGraphData g o1 r1).1 p.2.source with _ | u1 <;>
    rcases h2 : mapGetNode (transformGraphData g o1 r1).1 p.2.target with _ | u2 <;>
    rw [h1, h2] at hfp <;> simp at hfp
  rw [← hfp]

/-- A two-node payload with one resolvable edge and one edge whose target
is unknown (the latter is dropped by the build). -/
def demoGraph : Graph :=
  { nodes := [{ id := "a", label := "A" }, { id := "b", label := "B" }],
    edges := [{ source := "a", target := "b", type := "t" },
              { source := "a", target := "x", type := "t" }] }

/-- The single link the build produces from `demoGraph`. -/
def c5link : GLink :=
  { sourceId := "a", targetId := "b", type := "t", edgeIndex := 0, length := 30,
    relevanceScore := ((2 % 100 : Nat) : ℚ) / 100, isHighlighted := false,
    highlightLabel := some "" }

theorem c5_relevance_deterministic_witness :
    (transformGraphData demoGraph [] 5).2 = (transformGraphData demoGraph freshAB 7).2 ∧
    c5link ∈ (transformGraphData demoGraph [] 5).2 ∧
    c5link.relevanceScore =
      (((c5link.edgeIndex + (c5link.sourceId.length + c5link.targetId.length)) % 100 :
        Nat) : ℚ) / 100 := by
  have h := c5_relevance_deterministic demoGraph [] freshAB 5 7
  have hmem : c5link ∈ (transformGraphData demoGraph [] 5).2 := by
    rw [show (transformGraphData demoGraph [] 5).2 = [c5link] from rfl]
    exact List.mem_cons_self _ _
  exact ⟨h.1, hmem, h.2 c5link hmem⟩
